import Mathlib

/-!
# Verification of the docgrab documentation-download engine

Shallow embedding of `src/services/mpc/docs/doc.py` (a documentation-site
discovery-and-retrieval tool) in Lean 4, together with proofs settling the
frozen specification claims.

Modelling conventions:
* Python `str` values are modelled as `List Char` internally (wrapped in
  `String` at API boundaries); byte strings as `List Nat`.
* Python whitespace stripping (`str.strip()`) is modelled over the ASCII
  whitespace set, which covers every input appearing in this development.
* Fallible Python operations (exceptions) are modelled with `Option` /
  `Except Unit`; an uncaught `ValueError` from `urllib.parse.urlsplit`
  surfaces as `Except.error ()`.
* External library effects (the network via `urllib.request.urlopen`,
  `gzip.decompress`, `xml.etree.ElementTree.fromstring`, and the HTML
  tokenizer of `html.parser.HTMLParser`) are oracle parameters; everything
  the repository itself computes is translated directly from the source.
-/

namespace Docgrab

/-! ## Python string primitives (over `List Char`) -/

/-- ASCII whitespace, the model of Python `str.strip()`'s default char set. -/
def isPyWs (c : Char) : Bool :=
  decide (c ∈ ([' ', '\t', '\n', '\x0d', '\x0b', '\x0c'] : List Char))

/-- The quote characters stripped by `normalize_url` (single and double quote). -/
def isQuote (c : Char) : Bool := decide (c ∈ (['\'', '\"'] : List Char))

/-- `s.lstrip(chars)`: drop leading characters satisfying `p`. -/
def lstripP (p : Char → Bool) (l : List Char) : List Char := l.dropWhile p

/-- `s.rstrip(chars)`: drop trailing characters satisfying `p`. -/
def rstripP (p : Char → Bool) (l : List Char) : List Char :=
  (l.reverse.dropWhile p).reverse

/-- `s.strip(chars)`: drop characters satisfying `p` from both ends. -/
def stripP (p : Char → Bool) (l : List Char) : List Char :=
  rstripP p (lstripP p l)

/-- Python `sub in s` on strings: substring containment. -/
def strContainsL (hay needle : List Char) : Bool :=
  hay.tails.any (fun t => needle.isPrefixOf t)

def strContains (hay needle : String) : Bool :=
  strContainsL hay.toList needle.toList

/-- Python `s.lower()` (ASCII model). -/
def lowerL (l : List Char) : List Char := l.map Char.toLower

/-- Python `s.split(sep)` for a single-character separator. -/
def splitOnChar (c : Char) : List Char → List (List Char)
  | [] => [[]]
  | x :: xs =>
    if x = c then [] :: splitOnChar c xs
    else
      match splitOnChar c xs with
      | h :: t => (x :: h) :: t
      | [] => [[x]]

/-- Python `s.split(sep, 1)` when `sep` occurs: the pieces before and after
the first occurrence of `c`. `none` when `c` does not occur. -/
def splitFirst (c : Char) : List Char → Option (List Char × List Char)
  | [] => none
  | x :: xs =>
    if x = c then some ([], xs)
    else (splitFirst c xs).map (fun p => (x :: p.1, p.2))

/-- Digits of a Python integer literal body, allowing single interior
underscores between digits (`int("1_0") = 10`). -/
def pyDigits : List Char → Option Nat
  | [] => none
  | l => go l true 0
where
  go : List Char → Bool → Nat → Option Nat
    | [], needDigit, acc => if needDigit then none else some acc
    | c :: rest, needDigit, acc =>
      if c.isDigit then go rest false (10 * acc + (c.toNat - 48))
      else if c = '_' then
        if needDigit then none
        else
          match rest with
          | [] => none
          | d :: _ => if d.isDigit then go rest true acc else none
      else none

/-- Python `int(s)` for base-10 string input: strips whitespace, accepts an
optional sign, digits with interior underscores.  `none` models
`ValueError`. -/
def pyInt (l : List Char) : Option Int :=
  match stripP isPyWs l with
  | '+' :: rest => (pyDigits rest).map (fun n => (n : Int))
  | '-' :: rest => (pyDigits rest).map (fun n => -(n : Int))
  | rest => (pyDigits rest).map (fun n => (n : Int))

/-- Python `s.startswith(pre)`. -/
def startsWithL (l pre : List Char) : Bool := pre.isPrefixOf l

/-- Python `s.endswith(suf)`. -/
def endsWithL (l suf : List Char) : Bool := suf.reverse.isPrefixOf l.reverse

/-! ## `normalize_url` (doc.py lines 46-57) -/

/-- Whether the case-insensitive regex `^https?://` matches `l`
(`re.match` with `re.IGNORECASE` in the source). -/
def matchesHttpScheme (l : List Char) : Bool :=
  startsWithL (lowerL l) "http://".toList || startsWithL (lowerL l) "https://".toList

/-- `normalize_url` from doc.py: strip whitespace, strip surrounding quote
characters, prepend `https://` when no `http(s)://` prefix is present,
strip trailing slashes.  Returns `""` for empty input. -/
def normalizeUrlL (raw : List Char) : List Char :=
  let r1 := stripP isPyWs raw
  let r2 := rstripP isQuote (stripP isQuote (stripP isPyWs r1))
  if r2 = [] then []
  else rstripP (fun c => c == '/') (if matchesHttpScheme r2 then r2 else "https://".toList ++ r2)

def normalize_url (raw : String) : String := (normalizeUrlL raw.toList).asString

/-! ### Helper lemmas about stripping -/

theorem head_dropWhile_not (p : Char → Bool) :
    ∀ l : List Char, ∀ c, (l.dropWhile p).head? = some c → p c = false := by
  intro l
  induction l with
  | nil => intro c h; simp [List.dropWhile] at h
  | cons x xs ih =>
    intro c h
    by_cases hx : p x
    · rw [List.dropWhile_cons_of_pos hx] at h; exact ih c h
    · rw [List.dropWhile_cons_of_neg hx] at h
      simp at h
      subst h
      simpa using hx

theorem getLast_rstripP (p : Char → Bool) (l : List Char) (c : Char)
    (h : (rstripP p l).getLast? = some c) : p c = false := by
  unfold rstripP at h
  rw [List.getLast?_reverse] at h
  exact head_dropWhile_not p l.reverse c h

theorem dropWhile_eq_self_of_head (p : Char → Bool) (l : List Char)
    (h : ∀ c, l.head? = some c → p c = false) : l.dropWhile p = l := by
  cases l with
  | nil => rfl
  | cons x xs =>
    have hx := h x (by simp)
    simp [List.dropWhile, hx]

theorem rstripP_eq_self_of_last (p : Char → Bool) (l : List Char)
    (h : ∀ c, l.getLast? = some c → p c = false) : rstripP p l = l := by
  unfold rstripP
  rw [dropWhile_eq_self_of_head p l.reverse, List.reverse_reverse]
  intro c hc
  apply h
  rwa [List.head?_reverse] at hc

theorem stripP_eq_self (p : Char → Bool) (l : List Char)
    (hh : ∀ c, l.head? = some c → p c = false)
    (hl : ∀ c, l.getLast? = some c → p c = false) : stripP p l = l := by
  unfold stripP lstripP
  rw [dropWhile_eq_self_of_head p l hh, rstripP_eq_self_of_last p l hl]

theorem isPrefixOf_head {a : Char} : ∀ {pre m : List Char}, pre.isPrefixOf m = true →
    pre.head? = some a → m.head? = some a := by
  intro pre m hp ha
  cases pre with
  | nil => simp at ha
  | cons p ps =>
    cases m with
    | nil => simp [List.isPrefixOf] at hp
    | cons q qs =>
      simp [List.isPrefixOf] at hp
      simp at ha ⊢
      rw [← hp.1]
      exact ha

theorem matchesHttpScheme_head (l : List Char) (h : matchesHttpScheme l = true) :
    ∃ c rest, l = c :: rest ∧ c.toLower = 'h' := by
  cases l with
  | nil => exact absurd h (by decide)
  | cons x xs =>
    refine ⟨x, xs, rfl, ?_⟩
    unfold matchesHttpScheme startsWithL lowerL at h
    rcases Bool.or_eq_true_iff.mp h with h | h
    · have := isPrefixOf_head h (by decide : ("http://".toList).head? = some 'h')
      simpa using this
    · have := isPrefixOf_head h (by decide : ("https://".toList).head? = some 'h')
      simpa using this

theorem toLower_h_not_ws_quote (c : Char) (h : c.toLower = 'h') :
    isPyWs c = false ∧ isQuote c = false := by
  constructor
  · by_contra hc
    rw [Bool.not_eq_false] at hc
    unfold isPyWs at hc
    rw [decide_eq_true_iff] at hc
    fin_cases hc <;> exact absurd h (by decide)
  · by_contra hc
    rw [Bool.not_eq_false] at hc
    unfold isQuote at hc
    rw [decide_eq_true_iff] at hc
    fin_cases hc <;> exact absurd h (by decide)

theorem normalizeUrlL_getLast (raw : List Char) (c : Char)
    (h : (normalizeUrlL raw).getLast? = some c) : (c == '/') = false := by
  unfold normalizeUrlL at h
  simp only at h
  by_cases he : rstripP isQuote (stripP isQuote (stripP isPyWs (stripP isPyWs raw))) = []
  · rw [if_pos he] at h; simp at h
  · rw [if_neg he] at h
    simpa using getLast_rstripP (fun c => c == '/') _ _ h

/-- Last character of the normalized URL is neither whitespace nor a quote
character (part of the condition under which normalization is a fixpoint). -/
def goodTail (l : List Char) : Bool :=
  l.getLast?.all (fun c => !(isPyWs c || isQuote c))

theorem normalizeUrlL_fixpoint (o : List Char)
    (hm : matchesHttpScheme o = true) (ht : goodTail o = true)
    (hs : ∀ c, o.getLast? = some c → (c == '/') = false) :
    normalizeUrlL o = o := by
  have hlast : ∀ c, o.getLast? = some c → isPyWs c = false ∧ isQuote c = false := by
    intro c hc
    unfold goodTail at ht
    rw [hc] at ht
    simp at ht
    exact ht
  obtain ⟨c0, rest, hol, hc0⟩ := matchesHttpScheme_head o hm
  have hhead : ∀ c, o.head? = some c → isPyWs c = false ∧ isQuote c = false := by
    intro c hc
    rw [hol, List.head?_cons] at hc
    have hcc : c0 = c := Option.some.inj hc
    exact hcc ▸ toLower_h_not_ws_quote c0 hc0
  have hne : o ≠ [] := by rw [hol]; simp
  have hsw : stripP isPyWs o = o :=
    stripP_eq_self _ _ (fun c hc => (hhead c hc).1) (fun c hc => (hlast c hc).1)
  have hsq : stripP isQuote o = o :=
    stripP_eq_self _ _ (fun c hc => (hhead c hc).2) (fun c hc => (hlast c hc).2)
  have hrq : rstripP isQuote o = o :=
    rstripP_eq_self_of_last _ _ (fun c hc => (hlast c hc).2)
  have hrs : rstripP (fun c => c == '/') o = o :=
    rstripP_eq_self_of_last _ _ hs
  simp only [normalizeUrlL]
  rw [hsw, hsw, hsq, hrq, if_neg hne, if_pos hm, hrs]

/-- Claim C5 (amended): `normalize_url` is idempotent on every input whose
normalized form is empty, or still matches `^https?://` case-insensitively
and does not end in a whitespace or quote character.  (In general a single
application can leave a trailing quote or whitespace exposed by the final
`rstrip("/")`, or strip the `//` out of a bare `http://` scheme, so full
idempotence fails; see the counterexample.) -/
theorem normalize_url_idempotent_cond (u : String)
    (h : normalize_url u = "" ∨
      (matchesHttpScheme (normalize_url u).toList = true ∧
       goodTail (normalize_url u).toList = true)) :
    normalize_url (normalize_url u) = normalize_url u := by
  rcases h with h | ⟨hm, ht⟩
  · rw [h]; rfl
  · have hlist : (normalize_url u).toList = normalizeUrlL u.toList :=
      List.toList_asString _
    have hs : ∀ c, (normalize_url u).toList.getLast? = some c → (c == '/') = false := by
      intro c hc
      rw [hlist] at hc
      exact normalizeUrlL_getLast u.toList c hc
    show (normalizeUrlL (normalize_url u).toList).asString = normalize_url u
    rw [normalizeUrlL_fixpoint _ hm ht hs]
    exact String.asString_toList _

/-- Witness for C5's amended theorem at the concrete input
`"example.com/docs/"`. -/
theorem normalize_url_idempotent_witness :
    normalize_url (normalize_url "example.com/docs/") = normalize_url "example.com/docs/" :=
  normalize_url_idempotent_cond "example.com/docs/" (Or.inr ⟨by decide, by decide⟩)

/-- Claim C5 (counterexample): normalization is not idempotent as stated;
for the input `http://x"/` the first pass strips the slash and leaves the
quote, while the second pass then also strips the quote. -/
theorem normalize_url_not_idempotent :
    ¬ normalize_url (normalize_url "http://x\"/") = normalize_url "http://x\"/" := by
  decide

/-! ## `urllib.parse` model: `urlsplit`, `urlunsplit`, `urljoin`

Translated from CPython's `urllib/parse.py` as used by doc.py.  A raised
`ValueError` ("Invalid IPv6 URL" / invalid bracketed host) is modelled as
`Except.error ()`. -/

structure UrlParts where
  scheme : List Char
  netloc : List Char
  path : List Char
  query : List Char
  fragment : List Char
deriving Repr, DecidableEq

/-- Characters allowed in a URL scheme after the first letter. -/
def schemeChar (c : Char) : Bool :=
  c.isAlpha || c.isDigit || decide (c ∈ (['+', '-', '.'] : List Char))

/-- CPython removes tab/CR/LF anywhere in the URL and strips leading and
trailing C0-control-or-space characters before parsing. -/
def cleanUrl (l : List Char) : List Char :=
  stripP (fun c => c.toNat ≤ 32)
    (l.filter (fun c => !(decide (c ∈ (['\t', '\x0d', '\n'] : List Char)))))

/-- Scheme detection in `urlsplit`: a leading ASCII letter followed by
scheme characters up to the first `:`.  Returns the lowercased scheme and
the remainder, or `none` when no scheme is present. -/
def detectScheme (l : List Char) : Option (List Char × List Char) :=
  match splitFirst ':' l with
  | none => none
  | some (pre, post) =>
    match pre with
    | [] => none
    | c :: rest =>
      if c.isAlpha && rest.all schemeChar then some (lowerL (c :: rest), post)
      else none

def isHexDigit (c : Char) : Bool :=
  c.isDigit || decide (c ∈ (['a','b','c','d','e','f','A','B','C','D','E','F'] : List Char))

/-- Model of CPython's bracketed-host validation (`_check_bracketed_host`):
the text between `[` and `]` must look like an IPv6 address (hex digits,
`:`/`.`, containing a `:`) or an IPvFuture literal starting with `v`. -/
def bracketedHostOk (netloc : List Char) : Bool :=
  let inner := (netloc.dropWhile (fun c => !(c == '['))).drop 1 |>.takeWhile (fun c => !(c == ']'))
  !inner.isEmpty &&
    (inner.head? == some 'v' ||
     (inner.all (fun c => isHexDigit c || c == ':' || c == '.') && inner.any (fun c => c == ':')))

/-- Bracket validity of a netloc: mismatched `[`/`]` or an invalid
bracketed host raise `ValueError` in CPython. -/
def netlocBracketsOk (netloc : List Char) : Bool :=
  let hasL := netloc.any (fun c => c == '[')
  let hasR := netloc.any (fun c => c == ']')
  if hasL || hasR then hasL && hasR && bracketedHostOk netloc
  else true

def stopNetloc (c : Char) : Bool := decide (c ∈ (['/', '?', '#'] : List Char))

/-- `urllib.parse.urlsplit(url, scheme=default)`. -/
def pyUrlsplitD (url : List Char) (defaultScheme : List Char) : Except Unit UrlParts := do
  let url := cleanUrl url
  let (scheme, rest) :=
    match detectScheme url with
    | some (s, r) => (s, r)
    | none => (cleanUrl defaultScheme, url)
  let (netloc, rest) :=
    if startsWithL rest "//".toList then
      ((rest.drop 2).takeWhile (fun c => !stopNetloc c),
       (rest.drop 2).dropWhile (fun c => !stopNetloc c))
    else ([], rest)
  if !netlocBracketsOk netloc then
    throw ()
  let (rest, fragment) :=
    match splitFirst '#' rest with
    | some (a, b) => (a, b)
    | none => (rest, [])
  let (path, query) :=
    match splitFirst '?' rest with
    | some (a, b) => (a, b)
    | none => (rest, [])
  return ⟨scheme, netloc, path, query, fragment⟩

def pyUrlsplitL (url : List Char) : Except Unit UrlParts := pyUrlsplitD url []

/-- `urllib.parse.urlunsplit`. -/
def pyUrlunsplitL (p : UrlParts) : List Char :=
  let url := p.path
  let url :=
    if !p.netloc.isEmpty || startsWithL url "//".toList then
      let url' := if !url.isEmpty && !startsWithL url "/".toList then '/' :: url else url
      '/' :: '/' :: (p.netloc ++ url')
    else url
  let url := if !p.scheme.isEmpty then p.scheme ++ ':' :: url else url
  let url := if !p.query.isEmpty then url ++ '?' :: p.query else url
  if !p.fragment.isEmpty then url ++ '#' :: p.fragment else url

/-- Schemes for which relative joining is defined (`uses_relative`). -/
def usesRelative (s : List Char) : Bool :=
  decide (s.asString ∈ (["", "ftp", "http", "gopher", "nntp", "imap", "wais",
    "file", "https", "shttp", "mms", "prospero", "rtsp", "rtspu", "sftp",
    "svn", "svn+ssh", "ws", "wss"] : List String))

/-- Schemes that use a network location (`uses_netloc`). -/
def usesNetloc (s : List Char) : Bool :=
  decide (s.asString ∈ (["", "ftp", "http", "gopher", "nntp", "telnet", "imap",
    "wais", "file", "mms", "https", "shttp", "snews", "prospero", "rtsp",
    "rtspu", "rsync", "svn", "svn+ssh", "sftp", "nfs", "git", "git+ssh",
    "ws", "wss"] : List String))

/-- Keep the first and last element, drop empty interior elements
(`segments[1:-1] = filter(None, segments[1:-1])`). -/
def filterInteriorSegs (l : List (List Char)) : List (List Char) :=
  match l with
  | [] => []
  | [a] => [a]
  | a :: rest =>
    a :: ((rest.dropLast.filter (fun s => !s.isEmpty)) ++ [rest.getLast!])

/-- The dot-segment resolution loop of `urljoin`. -/
def resolveSegs : List (List Char) → List (List Char) → List (List Char)
  | [], acc => acc
  | s :: rest, acc =>
    if s = "..".toList then resolveSegs rest acc.dropLast
    else if s = ".".toList then resolveSegs rest acc
    else resolveSegs rest (acc ++ [s])

/-- `urllib.parse.urljoin` (CPython algorithm; the rarely used `;params`
component, which doc.py never produces, is folded into the path). -/
def pyUrljoinL (base url : List Char) : Except Unit (List Char) := do
  if base.isEmpty then return url
  if url.isEmpty then return base
  let b ← pyUrlsplitL base
  let u ← pyUrlsplitD url b.scheme
  if u.scheme ≠ b.scheme || !usesRelative u.scheme then return url
  let mut netloc := u.netloc
  if usesNetloc u.scheme then
    if !u.netloc.isEmpty then
      return pyUrlunsplitL ⟨u.scheme, u.netloc, u.path, u.query, u.fragment⟩
    netloc := b.netloc
  if u.path.isEmpty then
    let query := if u.query.isEmpty then b.query else u.query
    return pyUrlunsplitL ⟨u.scheme, netloc, b.path, query, u.fragment⟩
  let baseParts := splitOnChar '/' b.path
  let baseParts := if baseParts.getLast! ≠ [] then baseParts.dropLast else baseParts
  let segments :=
    if startsWithL u.path "/".toList then splitOnChar '/' u.path
    else filterInteriorSegs (baseParts ++ splitOnChar '/' u.path)
  let resolved := resolveSegs segments []
  let resolved :=
    if segments.getLast? = some ".".toList || segments.getLast? = some "..".toList then
      resolved ++ [[]]
    else resolved
  let joined := (List.intercalate ['/'] resolved)
  let path := if joined.isEmpty then ['/'] else joined
  return pyUrlunsplitL ⟨u.scheme, netloc, path, u.query, u.fragment⟩

/-! ## Slug helpers (doc.py lines 60-81, 608-615) -/

/-- `split_root_and_base`: root = scheme+host, base = scheme+host+path with
the trailing slash stripped. -/
def split_root_and_baseL (url : List Char) : Except Unit (List Char × List Char) := do
  let parts ← pyUrlsplitL url
  let root := pyUrlunsplitL ⟨parts.scheme, parts.netloc, [], [], []⟩
  let base := pyUrlunsplitL ⟨parts.scheme, parts.netloc, parts.path, [], []⟩
  return (root, rstripP (fun c => c == '/') base)

/-- Characters kept by `safe_slug`'s regex `[^A-Za-z0-9._-]+`. -/
def slugOk (c : Char) : Bool :=
  c.isAlpha || c.isDigit || decide (c ∈ (['.', '_', '-'] : List Char))

/-- `re.sub(r"[^A-Za-z0-9._-]+", "_", s)`: each maximal run of disallowed
characters becomes one underscore.  The flag records whether the previous
character was part of a disallowed run. -/
def subBadRuns (l : List Char) : List Char := go l false where
  go : List Char → Bool → List Char
    | [], _ => []
    | c :: rest, inBad =>
      if slugOk c then c :: go rest false
      else if inBad then go rest true
      else '_' :: go rest true

/-- `safe_slug` from doc.py. -/
def safe_slugL (s : List Char) : List Char :=
  let t := stripP (fun c => c == '_') (subBadRuns s)
  if t = [] then "site".toList else t

/-- `slug_from_url` from doc.py: host (with `:` replaced by `_`) and the
slash-stripped path joined by `__`; no length truncation. -/
def slug_from_urlL (url : List Char) : Except Unit (List Char) := do
  let parts ← pyUrlsplitL url
  let host := parts.netloc.map (fun c => if c = ':' then '_' else c)
  let path := stripP (fun c => c == '/') parts.path
  if path ≠ [] then
    return safe_slugL (host ++ "__".toList ++ path)
  return safe_slugL host

def slug_from_url (url : String) : Except Unit String :=
  (slug_from_urlL url.toList).map List.asString

/-- `url_to_page_slug` from doc.py: slug of the slash-stripped path only
(`"index"` when empty), hard-truncated to 140 characters. -/
def url_to_page_slugL (url : List Char) : Except Unit (List Char) := do
  let parts ← pyUrlsplitL url
  let path0 := stripP (fun c => c == '/') parts.path
  let path := if path0 = [] then "index".toList else path0
  let slug := safe_slugL path
  return if slug.length > 140 then slug.take 140 else slug

def url_to_page_slug (url : String) : Except Unit String :=
  (url_to_page_slugL url.toList).map List.asString

instance : DecidableEq Unit := fun _ _ => isTrue rfl

instance {α β : Type} [DecidableEq α] [DecidableEq β] : DecidableEq (Except α β) :=
  fun x y =>
    match x, y with
    | .ok a, .ok b => if h : a = b then isTrue (by rw [h]) else isFalse (by simp [h])
    | .error a, .error b => if h : a = b then isTrue (by rw [h]) else isFalse (by simp [h])
    | .ok _, .error _ => isFalse (by simp)
    | .error _, .ok _ => isFalse (by simp)

theorem exBindOk {α β : Type} (a : α) (f : α → Except Unit β) :
    (Except.ok a >>= f) = f a := rfl

theorem exBindErr {β : Type} (f : Unit → Except Unit β) :
    ((Except.error () : Except Unit Unit) >>= f) = Except.error () := rfl

set_option maxRecDepth 40000 in
/-- Claim C6 (counterexample): the per-site slug `slug_from_url` performs no
140-character truncation (a 150-character path yields a 157-character
slug), and the per-page slug `url_to_page_slug` does not combine the host
with the path at all. -/
theorem slug_claim_counterexample :
    (slug_from_url (("https://h.com/".toList ++ List.replicate 150 'a').asString)).map
        String.length = Except.ok 157 ∧
    url_to_page_slug "https://h.com/page" = Except.ok "page" ∧ 140 < 157 := by
  refine ⟨by decide, by decide, by omega⟩

/-- Claim C6 (amended): the per-site slug combines host (with `:` mapped to
`_`) and the slash-stripped path with a double-underscore separator and is
not truncated; the per-page slug is derived from the path alone and is
hard-truncated to at most 140 characters. -/
theorem slug_structure (url : String) (parts : UrlParts)
    (h : pyUrlsplitL url.toList = Except.ok parts) :
    (∀ s, url_to_page_slug url = Except.ok s → s.length ≤ 140) ∧
    (stripP (fun c => c == '/') parts.path ≠ [] →
      slug_from_url url = Except.ok (safe_slugL
        (parts.netloc.map (fun c => if c = ':' then '_' else c) ++
         "__".toList ++ stripP (fun c => c == '/') parts.path)).asString) := by
  constructor
  · intro s hs
    unfold url_to_page_slug url_to_page_slugL at hs
    rw [h, exBindOk] at hs
    set path0 := stripP (fun c => c == '/') parts.path with hp0
    set slug := safe_slugL (if path0 = [] then "index".toList else path0) with hslug
    have hs2 : Except.ok ((if slug.length > 140 then slug.take 140 else slug).asString) =
        Except.ok s := hs
    have hval : (if slug.length > 140 then slug.take 140 else slug).asString = s :=
      Except.ok.inj hs2
    rw [← hval, List.length_asString]
    by_cases hlen : slug.length > 140
    · rw [if_pos hlen, List.length_take]; omega
    · rw [if_neg hlen]; omega
  · intro hne
    unfold slug_from_url slug_from_urlL
    rw [h, exBindOk]
    simp only
    rw [if_pos hne]
    rfl

/-- Witness for C6's amended theorem at `https://h.com/docs/intro`. -/
theorem slug_structure_witness :
    ("docs_intro".length ≤ 140) ∧
    slug_from_url "https://h.com/docs/intro" = Except.ok "h.com__docs_intro" := by
  have h := slug_structure "https://h.com/docs/intro"
    ⟨"https".toList, "h.com".toList, "/docs/intro".toList, [], []⟩ (by decide)
  refine ⟨h.1 "docs_intro" (by decide), ?_⟩
  have h2 := h.2 (by decide)
  rw [h2]
  decide

/-! ## HTTP fetch model (doc.py lines 92-167)

`urlopen` is modelled by an oracle giving, per attempt index, either a raw
response or a transport exception (`HTTPError`/`URLError`/anything else:
the source catches them all identically).  `gzip.decompress` is an oracle
returning `none` when it would raise.  Sleep durations are recorded in
milliseconds, so `time.sleep(0.4 * (attempt + 1))` is `400 * (attempt + 1)`. -/

structure RawResp where
  status : Nat
  headers : List (String × String)
  body : List Nat
deriving Repr, DecidableEq

structure FetchResult where
  url : String
  status : Nat
  headers : List (String × String)
  body : List Nat
deriving Repr, DecidableEq

/-- `dict(resp.headers.items()).get(k, "")`: last value wins on duplicate
keys. -/
def headerGet (hs : List (String × String)) (k : String) : String :=
  match hs.reverse.find? (fun p => p.1 == k) with
  | some p => p.2
  | none => ""

def bytesStartsWith (l pre : List Nat) : Bool := pre.isPrefixOf l

/-- The bytes of `b"<?xml"`. -/
def xmlPrefixBytes : List Nat := "<?xml".toList.map Char.toNat

/-- The body post-processing inside `fetch`'s success path: decompress when
`Content-Encoding` mentions gzip, and again when the URL ends in `.gz` and
the body does not look like plain XML; a failed decompression is swallowed
(`except Exception: pass`). -/
def processBody (gunzip : List Nat → Option (List Nat)) (url : List Char)
    (headers : List (String × String)) (body : List Nat) : List Nat :=
  let ce := lowerL (headerGet headers "Content-Encoding").toList
  let body :=
    if strContainsL ce "gzip".toList then
      match gunzip body with
      | some b => b
      | none => body
    else body
  if endsWithL url ".gz".toList && !bytesStartsWith body xmlPrefixBytes then
    match gunzip body with
    | some b => b
    | none => body
  else body

/-- Build the `FetchResult` returned on a successful attempt. -/
def buildFetchResult (gunzip : List Nat → Option (List Nat)) (url : List Char)
    (r : RawResp) : FetchResult :=
  ⟨url.asString, r.status, r.headers, processBody gunzip url r.headers r.body⟩

/-- The attempt loop of `fetch`: try each attempt index in order, sleeping
`0.4 * (attempt + 1)` seconds (recorded in ms) after every failed attempt,
including the last.  Returns the result together with the sleep trace. -/
def fetchAttempts (oracle : Nat → Except Unit RawResp)
    (gunzip : List Nat → Option (List Nat)) (url : List Char) :
    List Nat → Option FetchResult × List Nat
  | [] => (none, [])
  | a :: rest =>
    match oracle a with
    | .ok r => (some (buildFetchResult gunzip url r), [])
    | .error _ =>
      let p := fetchAttempts oracle gunzip url rest
      (p.1, (400 * (a + 1)) :: p.2)

/-- `fetch(url, timeout, retries)`: `for attempt in range(retries + 1)`.
The `Option` result models "never raises: returns `None` on total
failure". -/
def fetchModel (oracle : Nat → Except Unit RawResp)
    (gunzip : List Nat → Option (List Nat)) (url : List Char) (retries : Nat) :
    Option FetchResult × List Nat :=
  fetchAttempts oracle gunzip url (List.range (retries + 1))

theorem fetchAttempts_spec (oracle : Nat → Except Unit RawResp)
    (gunzip : List Nat → Option (List Nat)) (url : List Char) :
    ∀ as : List Nat,
      ((∀ a ∈ as, oracle a = .error ()) ∧
        fetchAttempts oracle gunzip url as = (none, as.map (fun a => 400 * (a + 1)))) ∨
      (∃ as1 a as2 r, as = as1 ++ a :: as2 ∧ (∀ b ∈ as1, oracle b = .error ()) ∧
        oracle a = .ok r ∧
        fetchAttempts oracle gunzip url as =
          (some (buildFetchResult gunzip url r), as1.map (fun b => 400 * (b + 1)))) := by
  intro as
  induction as with
  | nil => left; exact ⟨by simp, rfl⟩
  | cons a rest ih =>
    cases ho : oracle a with
    | ok r =>
      right
      exact ⟨[], a, rest, r, rfl, by simp, ho, by simp [fetchAttempts, ho]⟩
    | error e =>
      rcases ih with ⟨hall, heq⟩ | ⟨as1, b, as2, r, hdec, hall, hok, heq⟩
      · left
        refine ⟨?_, ?_⟩
        · intro x hx
          rcases List.mem_cons.mp hx with rfl | hx
          · cases e; exact ho
          · exact hall x hx
        · simp [fetchAttempts, ho, heq]
      · right
        refine ⟨a :: as1, b, as2, r, by rw [hdec]; rfl, ?_, hok, ?_⟩
        · intro x hx
          rcases List.mem_cons.mp hx with rfl | hx
          · cases e; exact ho
          · exact hall x hx
        · simp [fetchAttempts, ho, heq]

theorem range_decomp (n : Nat) (l1 l2 : List Nat) (a : Nat)
    (h : List.range n = l1 ++ a :: l2) : l1 = List.range a ∧ a < n := by
  have hlen : l1.length < n := by
    have := congrArg List.length h
    simp at this
    omega
  have htake : l1 = List.range l1.length := by
    have h1 : (l1 ++ a :: l2).take l1.length = l1 := by
      simp
    have h2 : (List.range n).take l1.length = List.range (min l1.length n) :=
      List.take_range l1.length n
    rw [h, h1, min_eq_left (le_of_lt hlen)] at h2
    exact h2
  have ha : a = l1.length := by
    have hidx : l1.length < (List.range n).length := by simpa using hlen
    have h4 : (List.range n)[l1.length] = l1.length := by
      simp
    have h5 : (List.range n)[l1.length] = a := by
      simp only [h]
      rw [List.getElem_append_right (le_refl _)]
      simp
    omega
  subst ha
  exact ⟨htake, hlen⟩

/-- Claim C8: `fetch` never raises (its result type is `Option`): either
some attempt `k ≤ retries` is the first to succeed, in which case its
response is returned after `k` backoff sleeps of `0.4·1, …, 0.4·k` seconds,
or all `retries + 1` attempts fail, in which case `None` is returned after
backoff sleeps `0.4·1, …, 0.4·(retries+1)` seconds (values recorded in
milliseconds). -/
theorem fetch_retry_contract (oracle : Nat → Except Unit RawResp)
    (gunzip : List Nat → Option (List Nat)) (url : List Char) (retries : Nat) :
    ((∀ j ≤ retries, oracle j = .error ()) ∧
      fetchModel oracle gunzip url retries =
        (none, (List.range (retries + 1)).map (fun i => 400 * (i + 1)))) ∨
    (∃ k r, k ≤ retries ∧ (∀ j < k, oracle j = .error ()) ∧ oracle k = .ok r ∧
      fetchModel oracle gunzip url retries =
        (some (buildFetchResult gunzip url r),
         (List.range k).map (fun i => 400 * (i + 1)))) := by
  rcases fetchAttempts_spec oracle gunzip url (List.range (retries + 1)) with
    ⟨hall, heq⟩ | ⟨as1, a, as2, r, hdec, hall, hok, heq⟩
  · left
    refine ⟨fun j hj => hall j (by simp; omega), heq⟩
  · right
    obtain ⟨h1, h2⟩ := range_decomp (retries + 1) as1 as2 a hdec
    refine ⟨a, r, by omega, ?_, hok, ?_⟩
    · intro j hj
      exact hall j (by rw [h1]; simp; omega)
    · rw [fetchModel, heq, h1]

/-! ## Charset decoding (doc.py lines 154-167, claim C10) -/

/-- Characters matched by the regex class `[A-Za-z0-9._-]`. -/
def charsetAllowed (c : Char) : Bool :=
  c.isAlpha || c.isDigit || decide (c ∈ (['.', '_', '-'] : List Char))

/-- `re.search(r"charset=([A-Za-z0-9._-]+)", ctype, re.IGNORECASE)`:
leftmost occurrence of `charset=` (case-insensitive) followed by at least
one allowed character; the capture is the maximal allowed run. -/
def findCharset : List Char → Option (List Char)
  | [] => none
  | l@(_ :: rest) =>
    if startsWithL (lowerL l) "charset=".toList then
      let run := (l.drop 8).takeWhile charsetAllowed
      if run.isEmpty then findCharset rest else some run
    else findCharset rest

/-- `encodings.normalize_encoding`-style name normalization as performed by
`codecs.lookup`: lowercase, spaces and hyphens to underscores. -/
def normEncName (l : List Char) : List Char :=
  (lowerL l).map (fun c => if c = ' ' ∨ c = '-' then '_' else c)

/-- The codecs exercised by this program's inputs.  Any other name makes
`bytes.decode` raise `LookupError` (modelled as `none`). -/
inductive Codec | utf8 | ascii | latin1
deriving Repr, DecidableEq

def codecLookup (enc : List Char) : Option Codec :=
  let n := (normEncName enc).asString
  if n ∈ (["utf_8", "utf8", "utf", "u8", "cp65001"] : List String) then some .utf8
  else if n ∈ (["ascii", "us_ascii", "646"] : List String) then some .ascii
  else if n ∈ (["latin_1", "latin1", "latin", "l1", "iso_8859_1", "iso8859_1",
    "8859", "cp819"] : List String) then some .latin1
  else none

/-- U+FFFD, the replacement character used by `errors="replace"`. -/
def replChar : Char := Char.ofNat 0xFFFD

/-- UTF-8 decoding with replacement, one step per lead byte.  The fuel
argument (instantiated with the list length, which bounds the number of
steps) makes the recursion structural so that concrete inputs evaluate
inside the kernel; it never runs out for actual calls. -/
def utf8ReplaceF : Nat → List Nat → List Char
  | 0, _ => []
  | _ + 1, [] => []
  | fuel + 1, b :: rest =>
    if b < 0x80 then Char.ofNat b :: utf8ReplaceF fuel rest
    else if 0xC2 ≤ b ∧ b ≤ 0xDF then
      match rest with
      | [] => [replChar]
      | b2 :: rest2 =>
        if 0x80 ≤ b2 ∧ b2 ≤ 0xBF then
          Char.ofNat ((b - 0xC0) * 64 + (b2 - 0x80)) :: utf8ReplaceF fuel rest2
        else replChar :: utf8ReplaceF fuel (b2 :: rest2)
    else if 0xE0 ≤ b ∧ b ≤ 0xEF then
      match rest with
      | b2 :: b3 :: rest3 =>
        if (0x80 ≤ b2 ∧ b2 ≤ 0xBF) ∧ (0x80 ≤ b3 ∧ b3 ≤ 0xBF) then
          Char.ofNat ((b - 0xE0) * 4096 + (b2 - 0x80) * 64 + (b3 - 0x80)) :: utf8ReplaceF fuel rest3
        else replChar :: utf8ReplaceF fuel rest
      | _ => replChar :: utf8ReplaceF fuel rest
    else if 0xF0 ≤ b ∧ b ≤ 0xF4 then
      match rest with
      | b2 :: b3 :: b4 :: rest4 =>
        if (0x80 ≤ b2 ∧ b2 ≤ 0xBF) ∧ (0x80 ≤ b3 ∧ b3 ≤ 0xBF) ∧ (0x80 ≤ b4 ∧ b4 ≤ 0xBF) then
          Char.ofNat ((b - 0xF0) * 262144 + (b2 - 0x80) * 4096 + (b3 - 0x80) * 64 + (b4 - 0x80))
            :: utf8ReplaceF fuel rest4
        else replChar :: utf8ReplaceF fuel rest
      | _ => replChar :: utf8ReplaceF fuel rest
    else replChar :: utf8ReplaceF fuel rest

/-- `bytes.decode("utf-8", errors="replace")`. -/
def utf8Replace (l : List Nat) : List Char := utf8ReplaceF l.length l

/-- `bytes.decode(enc, errors="replace")` for the modelled codecs: total. -/
def bytesDecode (c : Codec) (body : List Nat) : List Char :=
  match c with
  | .utf8 => utf8Replace body
  | .ascii => body.map (fun b => if b < 128 then Char.ofNat b else replChar)
  | .latin1 => body.map (fun b => Char.ofNat b)

/-- `decode_bytes` from doc.py: decode with the declared charset when one
is present and known (`errors="replace"`), otherwise (no charset, or
`LookupError` on an unknown codec name) fall back to UTF-8 with
replacement.  Total by construction: every Python exception path is
caught in the source. -/
def decode_bytes (body : List Nat) (headers : List (String × String)) : List Char :=
  let ctype := headerGet headers "Content-Type"
  match findCharset ctype.toList with
  | some enc =>
    match codecLookup (stripP isPyWs enc) with
    | some c => bytesDecode c body
    | none => utf8Replace body
  | none => utf8Replace body

/-- Claim C10: charset decoding is total — for every byte body and header
list, `decode_bytes` returns a string: either the declared charset names a
known codec and the body is decoded with it under replacement semantics,
or (unknown/absent charset) the body is decoded as UTF-8 with replacement.
No input can make it raise: the result type is a plain `List Char`. -/
theorem decode_bytes_total (body : List Nat) (headers : List (String × String)) :
    (∃ enc c, findCharset (headerGet headers "Content-Type").toList = some enc ∧
      codecLookup (stripP isPyWs enc) = some c ∧
      decode_bytes body headers = bytesDecode c body) ∨
    decode_bytes body headers = utf8Replace body := by
  cases hf : findCharset (headerGet headers "Content-Type").toList with
  | none =>
    right
    unfold decode_bytes
    dsimp only
    rw [hf]
  | some enc =>
    cases hc : codecLookup (stripP isPyWs enc) with
    | none =>
      right
      unfold decode_bytes
      dsimp only
      rw [hf]
      dsimp only
      rw [hc]
    | some c =>
      left
      refine ⟨enc, c, rfl, hc, ?_⟩
      unfold decode_bytes
      dsimp only
      rw [hf]
      dsimp only
      rw [hc]

/-! ## `parse_selection` (doc.py lines 708-741, claim C9) -/

/-- Python `range(a, b + 1)` over integers. -/
def intRange (a b : Int) : List Int :=
  (List.range (b + 1 - a).toNat).map (fun i => a + i)

/-- One loop iteration of `parse_selection`: processes one comma-separated
token, accumulating into the Python `set`. -/
def selStep (n : Nat) (out : Finset Int) (part0 : List Char) : Finset Int :=
  let part := stripP isPyWs part0
  if part = [] then out
  else if part.any (fun c => c == '-') then
    match splitFirst '-' part with
    | some (a, b) =>
      match pyInt (stripP isPyWs a), pyInt (stripP isPyWs b) with
      | some s0, some e0 =>
        let se := if s0 > e0 then (e0, s0) else (s0, e0)
        out ∪ ((intRange se.1 se.2).filter
          (fun x => decide (1 ≤ x ∧ x ≤ (n : Int)))).toFinset
      | _, _ => out
    | none => out
  else
    match pyInt part with
    | some x => if 1 ≤ x ∧ x ≤ (n : Int) then insert x out else out
    | none => out

/-- `parse_selection(sel, n)`: comma-separated indices and inclusive ranges
(`"1,3,10-12"`), reversed endpoints swapped, invalid tokens skipped,
results restricted to `1..n`, returned sorted (Python `sorted(set)`). -/
def parse_selection (sel : String) (n : Nat) : List Int :=
  let selL := stripP isPyWs sel.toList
  if selL = [] then []
  else ((splitOnChar ',' selL).foldl (selStep n) ∅).sort (· ≤ ·)

/-- Claim C9 (counterexample): with a negative endpoint the claimed
endpoint-swap symmetry fails: `"7--3"` selects `1..7` (the endpoints are
swapped) but `"-3-7"` splits as `("", "3-7")`, fails integer parsing, and
selects nothing. -/
theorem parse_selection_reversed_counterexample :
    ¬ parse_selection "7--3" 10 = parse_selection "-3-7" 10 := by
  intro h
  have h1 : (1 : Int) ∈ parse_selection "7--3" 10 := by
    unfold parse_selection
    dsimp only
    rw [if_neg (by decide), Finset.mem_sort]
    decide
  have h2 : (1 : Int) ∉ parse_selection "-3-7" 10 := by
    unfold parse_selection
    dsimp only
    rw [if_neg (by decide), Finset.mem_sort]
    decide
  rw [h] at h1
  exact h2 h1

theorem splitOnChar_single (c : Char) (l : List Char) (h : ∀ x ∈ l, ¬ x = c) :
    splitOnChar c l = [l] := by
  induction l with
  | nil => rfl
  | cons x xs ih =>
    have hx : ¬ x = c := h x (by simp)
    rw [splitOnChar, if_neg hx, ih (fun y hy => h y (by simp [hy]))]

theorem splitFirst_mid (sa sb : List Char) (c : Char) (h : ∀ x ∈ sa, ¬ x = c) :
    splitFirst c (sa ++ c :: sb) = some (sa, sb) := by
  induction sa with
  | nil => simp [splitFirst]
  | cons x xs ih =>
    have hx : ¬ x = c := h x (by simp)
    rw [List.cons_append, splitFirst, if_neg hx,
      ih (fun y hy => h y (by simp [hy]))]
    rfl

theorem getLast?_mem_self (l : List Char) (c : Char) (h : l.getLast? = some c) :
    c ∈ l := by
  induction l with
  | nil => simp at h
  | cons x xs ih =>
    cases xs with
    | nil => simp at h; simp [h]
    | cons y ys =>
      rw [List.getLast?_cons_cons] at h
      exact List.mem_cons_of_mem x (ih h)

theorem stripP_eq_self_of_all (p : Char → Bool) (l : List Char)
    (h : ∀ c ∈ l, p c = false) : stripP p l = l := by
  apply stripP_eq_self
  · intro c hc
    cases l with
    | nil => simp at hc
    | cons x xs =>
      rw [List.head?_cons] at hc
      exact h c (Option.some.inj hc ▸ List.mem_cons_self x xs)
  · intro c hc
    exact h c (getLast?_mem_self l c hc)

theorem digit_not_ws (c : Char) (h : c.isDigit = true) : isPyWs c = false := by
  by_contra hc
  rw [Bool.not_eq_false] at hc
  unfold isPyWs at hc
  rw [decide_eq_true_iff] at hc
  fin_cases hc <;> simp_all

theorem digit_not_dash (c : Char) (h : c.isDigit = true) : ¬ c = '-' := by
  intro hc
  subst hc
  simp [Char.isDigit] at h

theorem digit_not_comma (c : Char) (h : c.isDigit = true) : ¬ c = ',' := by
  intro hc
  subst hc
  simp [Char.isDigit] at h

/-- The token processed for digit strings `sa`, `sb`: both orders produce
the same range insertion. -/
theorem selStep_swap (n : Nat) (out : Finset Int) (sa sb : List Char)
    (a b : Int)
    (hda : ∀ c ∈ sa, c.isDigit = true) (hdb : ∀ c ∈ sb, c.isDigit = true)
    (hia : pyInt sa = some a) (hib : pyInt sb = some b) :
    selStep n out (sa ++ '-' :: sb) = selStep n out (sb ++ '-' :: sa) := by
  have key : ∀ (u v : List Char) (x y : Int), (∀ c ∈ u, c.isDigit = true) →
      (∀ c ∈ v, c.isDigit = true) → pyInt u = some x → pyInt v = some y →
      selStep n out (u ++ '-' :: v) =
        out ∪ ((intRange (min x y) (max x y)).filter
          (fun z => decide (1 ≤ z ∧ z ≤ (n : Int)))).toFinset := by
    intro u v x y hdu hdv hiu hiv
    have hws : ∀ c ∈ u ++ '-' :: v, isPyWs c = false := by
      intro c hc
      rcases List.mem_append.mp hc with hc | hc
      · exact digit_not_ws c (hdu c hc)
      · rcases List.mem_cons.mp hc with rfl | hc
        · decide
        · exact digit_not_ws c (hdv c hc)
    have hstrip : stripP isPyWs (u ++ '-' :: v) = u ++ '-' :: v :=
      stripP_eq_self_of_all _ _ hws
    have hne : ¬ (u ++ '-' :: v) = [] := by simp
    have hdash : (u ++ '-' :: v).any (fun c => c == '-') = true := by
      rw [List.any_eq_true]
      exact ⟨'-', by simp, by simp⟩
    have hsplit : splitFirst '-' (u ++ '-' :: v) = some (u, v) :=
      splitFirst_mid u v '-' (fun c hc => digit_not_dash c (hdu c hc))
    have hsu : stripP isPyWs u = u :=
      stripP_eq_self_of_all _ _ (fun c hc => digit_not_ws c (hdu c hc))
    have hsv : stripP isPyWs v = v :=
      stripP_eq_self_of_all _ _ (fun c hc => digit_not_ws c (hdv c hc))
    unfold selStep
    rw [hstrip]
    dsimp only
    rw [if_neg hne, if_pos hdash, hsplit]
    dsimp only
    rw [hsu, hsv, hiu, hiv]
    dsimp only
    rcases lt_trichotomy x y with hxy | hxy | hxy
    · rw [if_neg (by omega)]
      dsimp only
      rw [min_eq_left (le_of_lt hxy), max_eq_right (le_of_lt hxy)]
    · subst hxy
      rw [if_neg (by omega)]
      dsimp only
      rw [min_self, max_self]
    · rw [if_pos (by omega)]
      dsimp only
      rw [min_eq_right (le_of_lt hxy), max_eq_left (le_of_lt hxy)]
  rw [key sa sb a b hda hdb hia hib, key sb sa b a hdb hda hib hia,
    min_comm, max_comm]

theorem selStep_bounds (n : Nat) (out : Finset Int) (part : List Char)
    (hout : ∀ x ∈ out, 1 ≤ x ∧ x ≤ (n : Int)) :
    ∀ x ∈ selStep n out part, 1 ≤ x ∧ x ≤ (n : Int) := by
  intro x hx
  unfold selStep at hx
  dsimp only at hx
  by_cases h1 : stripP isPyWs part = []
  · rw [if_pos h1] at hx; exact hout x hx
  · rw [if_neg h1] at hx
    by_cases h2 : (stripP isPyWs part).any (fun c => c == '-') = true
    · rw [if_pos h2] at hx
      cases hsp : splitFirst '-' (stripP isPyWs part) with
      | none => rw [hsp] at hx; exact hout x hx
      | some p =>
        rw [hsp] at hx
        cases hpa : pyInt (stripP isPyWs p.1) with
        | none => simp only [hpa] at hx; exact hout x hx
        | some s0 =>
          cases hpb : pyInt (stripP isPyWs p.2) with
          | none => simp only [hpa, hpb] at hx; exact hout x hx
          | some e0 =>
            simp only [hpa, hpb] at hx
            rcases Finset.mem_union.mp hx with hx | hx
            · exact hout x hx
            · rw [List.mem_toFinset, List.mem_filter] at hx
              exact of_decide_eq_true hx.2
    · rw [if_neg h2] at hx
      cases hpi : pyInt (stripP isPyWs part) with
      | none => rw [hpi] at hx; exact hout x hx
      | some v =>
        rw [hpi] at hx
        dsimp only at hx
        by_cases hv : 1 ≤ v ∧ v ≤ (n : Int)
        · rw [if_pos hv] at hx
          rcases Finset.mem_insert.mp hx with rfl | hx
          · exact hv
          · exact hout x hx
        · rw [if_neg hv] at hx; exact hout x hx

theorem selFold_bounds (n : Nat) (parts : List (List Char)) :
    ∀ out : Finset Int, (∀ x ∈ out, 1 ≤ x ∧ x ≤ (n : Int)) →
      ∀ x ∈ parts.foldl (selStep n) out, 1 ≤ x ∧ x ≤ (n : Int) := by
  induction parts with
  | nil => intro out hout x hx; exact hout x hx
  | cons p rest ih =>
    intro out hout x hx
    exact ih (selStep n out p) (selStep_bounds n out p hout) x hx

/-- Claim C9 (amended): for digit-literal endpoints the token `a-b` selects
the same indices as `b-a` (reversed ranges are accepted by endpoint
swapping); a range token with a negative left endpoint instead fails
integer parsing and is skipped (see the counterexample).  For every
selection string the returned list is sorted ascending, duplicate-free,
and contained in `[1, n]`. -/
theorem parse_selection_props :
    (∀ (sa sb : List Char) (a b : Int) (n : Nat),
      (∀ c ∈ sa, c.isDigit = true) → (∀ c ∈ sb, c.isDigit = true) →
      pyInt sa = some a → pyInt sb = some b →
      parse_selection (sa ++ '-' :: sb).asString n =
        parse_selection (sb ++ '-' :: sa).asString n) ∧
    (∀ (sel : String) (n : Nat),
      List.Sorted (· ≤ ·) (parse_selection sel n) ∧ (parse_selection sel n).Nodup ∧
      ∀ x ∈ parse_selection sel n, 1 ≤ x ∧ x ≤ (n : Int)) := by
  constructor
  · intro sa sb a b n hda hdb hia hib
    have hdall1 : ∀ c ∈ sa ++ '-' :: sb, isPyWs c = false := by
      intro c hc
      rcases List.mem_append.mp hc with hc | hc
      · exact digit_not_ws c (hda c hc)
      · rcases List.mem_cons.mp hc with rfl | hc
        · decide
        · exact digit_not_ws c (hdb c hc)
    have hdall2 : ∀ c ∈ sb ++ '-' :: sa, isPyWs c = false := by
      intro c hc
      rcases List.mem_append.mp hc with hc | hc
      · exact digit_not_ws c (hdb c hc)
      · rcases List.mem_cons.mp hc with rfl | hc
        · decide
        · exact digit_not_ws c (hda c hc)
    have hnc1 : ∀ x ∈ sa ++ '-' :: sb, ¬ x = ',' := by
      intro x hx
      rcases List.mem_append.mp hx with hx | hx
      · exact digit_not_comma x (hda x hx)
      · rcases List.mem_cons.mp hx with rfl | hx
        · decide
        · exact digit_not_comma x (hdb x hx)
    have hnc2 : ∀ x ∈ sb ++ '-' :: sa, ¬ x = ',' := by
      intro x hx
      rcases List.mem_append.mp hx with hx | hx
      · exact digit_not_comma x (hdb x hx)
      · rcases List.mem_cons.mp hx with rfl | hx
        · decide
        · exact digit_not_comma x (hda x hx)
    unfold parse_selection
    rw [List.toList_asString, List.toList_asString,
      stripP_eq_self_of_all _ _ hdall1, stripP_eq_self_of_all _ _ hdall2]
    dsimp only
    rw [if_neg (by simp), if_neg (by simp),
      splitOnChar_single ',' _ hnc1, splitOnChar_single ',' _ hnc2]
    simp only [List.foldl_cons, List.foldl_nil]
    rw [selStep_swap n ∅ sa sb a b hda hdb hia hib]
  · intro sel n
    unfold parse_selection
    dsimp only
    by_cases he : stripP isPyWs sel.toList = []
    · rw [if_pos he]
      exact ⟨List.sorted_nil, List.nodup_nil, by simp⟩
    · rw [if_neg he]
      refine ⟨Finset.sort_sorted _ _, Finset.sort_nodup _ _, ?_⟩
      intro x hx
      rw [Finset.mem_sort] at hx
      exact selFold_bounds n _ ∅ (by simp) x hx

/-- Witness for C9's amended theorem: `"7-3"` and `"3-7"` select the same
indices, and the scenario string `"2,4-6,99"` yields a sorted list. -/
theorem parse_selection_props_witness :
    parse_selection "7-3" 10 = parse_selection "3-7" 10 ∧
    List.Sorted (· ≤ ·) (parse_selection "2,4-6,99" 6) := by
  constructor
  · exact parse_selection_props.1 "7".toList "3".toList 7 3 10
      (by decide) (by decide) (by decide) (by decide)
  · exact (parse_selection_props.2 "2,4-6,99" 6).1

/-! ## HTML events and the markdown-ish converter (doc.py lines 189-295)

`html.parser.HTMLParser`'s tokenizer is standard-library code; the
repository only implements the event handlers.  A parsed document is
therefore modelled as a stream of events (start tag with attributes, end
tag, text data), and the handlers are folded over that stream. -/

inductive HtmlEvent
  | startTag (tag : String) (attrs : List (String × String))
  | endTag (tag : String)
  | dataText (s : String)

/-- State of `MarkdownishParser`.  `outRev` is `self.out` with the most
recent chunk first (so `self.out[-1]` is `outRev.head?`). -/
structure MdState where
  outRev : List String
  ignoreDepth : Nat
  inPre : Bool
  inCodeInline : Bool
  pendingHeading : Option Nat
  liPrefixPending : Bool
deriving Repr, DecidableEq

def mdInit : MdState := ⟨[], 0, false, false, none, false⟩

def mdIgnoreTags : List String := ["script", "style", "noscript"]

/-- `int(tag[1])` for a heading tag `h1`..`h6`. -/
def headingLevel (tag : String) : Nat :=
  (((tag.toList.drop 1).headD '0').toNat) - 48

/-- `re.sub(r"\s+", " ", data)`: collapse each whitespace run to one space. -/
def collapseWsRuns (l : List Char) : List Char := go l false where
  go : List Char → Bool → List Char
    | [], _ => []
    | c :: rest, inWs =>
      if isPyWs c then
        if inWs then go rest true else ' ' :: go rest true
      else c :: go rest false

/-- `MarkdownishParser.handle_starttag`. -/
def mdStart (st : MdState) (tag0 : String) : MdState :=
  let tag := (lowerL tag0.toList).asString
  if tag ∈ mdIgnoreTags then { st with ignoreDepth := st.ignoreDepth + 1 }
  else if st.ignoreDepth > 0 then st
  else if tag ∈ (["p", "div", "section", "article", "header", "table", "tr"] : List String) then
    { st with outRev := "\n\n" :: st.outRev }
  else if tag = "br" then { st with outRev := "\n" :: st.outRev }
  else if tag ∈ (["ul", "ol"] : List String) then { st with outRev := "\n\n" :: st.outRev }
  else if tag = "li" then
    { st with outRev := "\n- " :: st.outRev, liPrefixPending := true }
  else if tag ∈ (["h1", "h2", "h3", "h4", "h5", "h6"] : List String) then
    { st with outRev := "\n\n" :: st.outRev, pendingHeading := some (headingLevel tag) }
  else if tag = "pre" then
    { st with inPre := true, outRev := "\n\n```text\n" :: st.outRev }
  else if tag = "code" then
    if !st.inPre then { st with inCodeInline := true, outRev := "`" :: st.outRev }
    else st
  else st

/-- `MarkdownishParser.handle_endtag`. -/
def mdEnd (st : MdState) (tag0 : String) : MdState :=
  let tag := (lowerL tag0.toList).asString
  if tag ∈ mdIgnoreTags then
    if st.ignoreDepth > 0 then { st with ignoreDepth := st.ignoreDepth - 1 } else st
  else if st.ignoreDepth > 0 then st
  else if tag ∈ (["p", "div", "section", "article", "header"] : List String) then
    { st with outRev := "\n\n" :: st.outRev }
  else if tag ∈ (["h1", "h2", "h3", "h4", "h5", "h6"] : List String) then
    { st with outRev := "\n\n" :: st.outRev, pendingHeading := none }
  else if tag = "pre" then
    { st with inPre := false, outRev := "\n```\n\n" :: st.outRev }
  else if tag = "code" then
    if st.inCodeInline then { st with outRev := "`" :: st.outRev, inCodeInline := false }
    else st
  else if tag = "li" then { st with outRev := "\n" :: st.outRev }
  else st

/-- `MarkdownishParser.handle_data`.  The heading prefix is appended
whenever a heading is pending and the guard
`not (self.out and self.out[-1].startswith(prefix + " "))` passes; the
guard inspects the previous output chunk. -/
def mdData (st : MdState) (dat : String) : MdState :=
  if st.ignoreDepth > 0 then st
  else if dat = "" then st
  else
    let st :=
      match st.pendingHeading with
      | some lvl =>
        if !st.inPre then
          let pre := (List.replicate (max 1 (min 6 lvl)) '#').asString
          if !(match st.outRev with
               | last :: _ => startsWithL last.toList (pre ++ " ").toList
               | [] => false) then
            { st with outRev := (pre ++ " ") :: st.outRev }
          else st
        else st
      | none => st
    if st.inPre then { st with outRev := dat :: st.outRev }
    else
      let s := collapseWsRuns dat.toList
      let (s, li) :=
        if st.liPrefixPending then (lstripP isPyWs s, false)
        else (s, st.liPrefixPending)
      { st with outRev := s.asString :: st.outRev, liPrefixPending := li }

def mdStep (st : MdState) : HtmlEvent → MdState
  | .startTag t _ => mdStart st t
  | .endTag t => mdEnd st t
  | .dataText s => mdData st s

/-- `MarkdownishParser.feed` over an event stream. -/
def mdRun (events : List HtmlEvent) : MdState := events.foldl mdStep mdInit

/-- `re.sub(r"[ \t]+\n", "\n", txt)`: drop spaces/tabs directly before a
newline. -/
def rmSpTabBeforeNl (l : List Char) : List Char :=
  l.foldr (fun c acc =>
    if (c = ' ' ∨ c = '\t') ∧ acc.head? = some '\n' then acc else c :: acc) []

/-- `re.sub(r"\n{4,}", "\n\n\n", txt)`: cap newline runs at three. -/
def capNewlines (l : List Char) : List Char :=
  l.foldr (fun c acc =>
    if c = '\n' ∧ acc.take 3 = ['\n', '\n', '\n'] then acc else c :: acc) []

/-- `MarkdownishParser.get_text`. -/
def mdGetText (st : MdState) : String :=
  let txt := String.join st.outRev.reverse
  ((stripP isPyWs (capNewlines (rmSpTabBeforeNl txt.toList))) ++ ['\n']).asString

/-- Claim C3 (code bug): for the heading `<h2>Hello <em>world</em></h2>`,
whose text reaches `handle_data` in two chunks, the converter emits the
`##` prefix before *both* chunks — the source's own comment says the
prefix must be written only once per heading block, but the guard compares
against the previous chunk (`self.out[-1]`), which after the first chunk
is the heading text, not the prefix. -/
theorem md_heading_prefix_duplicated :
    mdGetText (mdRun [.startTag "h2" [], .dataText "Hello ", .startTag "em" [],
      .dataText "world", .endTag "em", .endTag "h2"]) = "## Hello ## world\n" := by
  decide

/-! ## XML model and the sitemap probe (doc.py lines 399-493)

`xml.etree.ElementTree` values are a tree of elements; `ET.fromstring` is
an oracle `String → Option XmlElem` (`none` models a parse exception).
The source tries `fromstring` on the UTF-8-encoded bytes and falls back to
the string itself — both attempts see the same logical text, so they are
modelled as one oracle call. -/

inductive XmlElem where
  | mk (tag : String) (text : Option String) (children : List XmlElem)

def XmlElem.tag : XmlElem → String
  | .mk t _ _ => t

def XmlElem.text : XmlElem → Option String
  | .mk _ t _ => t

def XmlElem.children : XmlElem → List XmlElem
  | .mk _ _ c => c

/-- `Element.findall(tag)`: the direct children with the given tag. -/
def findallX (e : XmlElem) (t : String) : List XmlElem :=
  e.children.filter (fun c => c.tag == t)

/-- `Element.find(tag)`: the first direct child with the given tag. -/
def findX (e : XmlElem) (t : String) : Option XmlElem := (findallX e t).head?

/-- `ns = root_el.tag.split("}")[0] + "}"` when the tag starts with `{`. -/
def nsOf (e : XmlElem) : String :=
  if startsWithL e.tag.toList ['\x7b'] then
    (((splitOnChar '\x7d' e.tag.toList).headD []) ++ ['\x7d']).asString
  else ""

/-- `get_loc`: text of the `loc` child, stripped, or `""`. -/
def getLocX (ns : String) (el : XmlElem) : String :=
  match findX el (ns ++ "loc") with
  | some loc => (stripP isPyWs ((loc.text).getD "").toList).asString
  | none => ""

/-- The external effects available to the discovery pipeline. -/
structure Ctx where
  world : String → Nat → Except Unit RawResp
  gunzip : List Nat → Option (List Nat)
  parseXml : String → Option XmlElem
  tokenize : String → List HtmlEvent

/-- `fetch(u)` with the default `retries=2`. -/
def fetchC (ctx : Ctx) (url : String) : Option FetchResult :=
  (fetchModel (ctx.world url) ctx.gunzip url.toList 2).1

/-- The sitemap candidate URLs, in probe order. -/
def sitemapCandidates (root base : List Char) : List String :=
  [(base ++ "/sitemap.xml".toList).asString,
   (root ++ "/sitemap.xml".toList).asString,
   (base ++ "/sitemap.xml.gz".toList).asString,
   (root ++ "/sitemap.xml.gz".toList).asString]

/-- The candidate loop of `fetch_sitemap_urls`: the first candidate fetched
with status 200 and a non-empty body is decoded and the loop `break`s —
XML parsing happens only after the loop. -/
def firstSitemapText (ctx : Ctx) : List String → Option (List Char)
  | [] => none
  | s :: rest =>
    match fetchC ctx s with
    | some r =>
      if r.status = 200 ∧ r.body ≠ [] then some (decode_bytes r.body r.headers)
      else firstSitemapText ctx rest
    | none => firstSitemapText ctx rest

/-- `<url><loc>` extraction from a url-set element: only direct `url`
children are consulted, and `loc.text` must be non-empty. -/
def urlsetLocs (ns : String) (el : XmlElem) : List String :=
  (findallX el (ns ++ "url")).filterMap (fun uel =>
    (findX uel (ns ++ "loc")).bind (fun l =>
      l.text.bind (fun t =>
        if t = "" then none else some ((stripP isPyWs t.toList).asString))))

/-- The URL collection phase of `fetch_sitemap_urls`, before filtering:
either the root element is a sitemap index (fetch each referenced leaf and
append its direct `<url><loc>` entries) or a url set (collect directly). -/
def sitemapCollect (ctx : Ctx) (rootEl : XmlElem) : List String :=
  let ns := nsOf rootEl
  if endsWithL rootEl.tag.toList "sitemapindex".toList then
    (findallX rootEl (ns ++ "sitemap")).foldl (fun urls sm =>
      let loc := getLocX ns sm
      if loc = "" then urls
      else
        match fetchC ctx loc with
        | none => urls
        | some sub =>
          if sub.status = 200 ∧ sub.body ≠ [] then
            match ctx.parseXml (decode_bytes sub.body sub.headers).asString with
            | none => urls
            | some subRoot => urls ++ urlsetLocs (nsOf subRoot) subRoot
          else urls) []
  else urlsetLocs ns rootEl

/-- The host/path filter and order-preserving dedup at the end of
`fetch_sitemap_urls`: normalize, require same netloc as the base, and —
when the base path is non-empty — require the path to start with it
(a plain string-prefix test). -/
def sitemapFilterStep (baseNorm basePath : List Char) (acc : List String)
    (u0 : String) : Except Unit (List String) :=
  let u := normalize_url u0
  if u = "" then pure acc
  else do
    let up ← pyUrlsplitL u.toList
    let bp ← pyUrlsplitL baseNorm
    if up.netloc ≠ bp.netloc then pure acc
    else if basePath ≠ [] ∧ ¬ startsWithL up.path basePath = true then pure acc
    else if u ∈ acc then pure acc
    else pure (acc ++ [u])

def sitemapFilter (base basePath : List Char) (urls : List String) :
    Except Unit (List String) :=
  urls.foldlM (sitemapFilterStep (rstripP (fun c => c == '/') base) basePath) []

/-- `fetch_sitemap_urls` from doc.py. -/
def fetch_sitemap_urls (ctx : Ctx) (base_url : String) : Except Unit (List String) := do
  let rb ← split_root_and_baseL base_url.toList
  let bparts ← pyUrlsplitL rb.2
  let basePath := rstripP (fun c => c == '/') bparts.path
  match firstSitemapText ctx (sitemapCandidates rb.1 rb.2) with
  | none => return []
  | some xmlText =>
    if xmlText = [] then return []
    else
      match ctx.parseXml xmlText.asString with
      | none => return []
      | some rootEl => sitemapFilter rb.2 basePath (sitemapCollect ctx rootEl)

/-! ### Claim C2: the probe parses only the first successfully fetched candidate -/

def strB (s : String) : List Nat := s.toList.map Char.toNat

def cexUrlset : XmlElem :=
  .mk "urlset" none [.mk "url" none [.mk "loc" (some "https://example.com/docs/page") []]]

def cexW : String → Nat → Except Unit RawResp := fun u _ =>
  if u = "https://example.com/docs/sitemap.xml" then .ok ⟨200, [], strB "notxml"⟩
  else if u = "https://example.com/sitemap.xml" then .ok ⟨200, [], strB "sitemapdoc"⟩
  else .error ()

def cexParse : String → Option XmlElem :=
  fun s => if s = "sitemapdoc" then some cexUrlset else none

def cexCtx : Ctx := ⟨cexW, fun _ => none, cexParse, fun _ => []⟩

/-- Claim C2 (counterexample): the first candidate
(`…/docs/sitemap.xml`) is fetched successfully but its body fails XML
parsing; the second candidate (`…/sitemap.xml` at the root) is fetchable
and parses to a url set whose entry passes every filter — yet the probe
yields no URLs, because parsing happens only after the candidate loop has
already stopped at the first successful fetch. -/
theorem sitemap_not_first_parsable :
    fetch_sitemap_urls cexCtx "https://example.com/docs" = .ok [] ∧
    (fetchC cexCtx "https://example.com/sitemap.xml").isSome = true ∧
    cexParse "sitemapdoc" = some cexUrlset ∧
    cexParse "notxml" = none := by
  refine ⟨by decide, by decide, by rfl, by rfl⟩

/-- Claim C2 (amended): the probe attempts `sitemap.xml` and
`sitemap.xml.gz` at the base path and the site root, in that order, and
decodes the first candidate fetched with status 200 and a non-empty body;
only that candidate is XML-parsed.  If its content fails to parse, the
probe returns the empty list and later candidates are not consulted. -/
theorem sitemap_first_fetched_only (ctx : Ctx) (base_url : String)
    (root base : List Char) (bparts : UrlParts) (r : FetchResult)
    (hsplit : split_root_and_baseL base_url.toList = .ok (root, base))
    (hbp : pyUrlsplitL base = .ok bparts)
    (hfetch : fetchC ctx ((base ++ "/sitemap.xml".toList).asString) = some r)
    (hst : r.status = 200) (hbody : r.body ≠ [])
    (hne : decode_bytes r.body r.headers ≠ [])
    (hparse : ctx.parseXml (decode_bytes r.body r.headers).asString = none) :
    sitemapCandidates root base =
      [(base ++ "/sitemap.xml".toList).asString,
       (root ++ "/sitemap.xml".toList).asString,
       (base ++ "/sitemap.xml.gz".toList).asString,
       (root ++ "/sitemap.xml.gz".toList).asString] ∧
    fetch_sitemap_urls ctx base_url = .ok [] := by
  refine ⟨rfl, ?_⟩
  unfold fetch_sitemap_urls
  rw [hsplit, exBindOk]
  try dsimp only
  rw [hbp, exBindOk]
  try dsimp only
  have hfirst : firstSitemapText ctx (sitemapCandidates root base) =
      some (decode_bytes r.body r.headers) := by
    unfold sitemapCandidates firstSitemapText
    rw [hfetch]
    try dsimp only
    rw [if_pos ⟨hst, hbody⟩]
  rw [hfirst]
  try dsimp only
  rw [if_neg hne, hparse]
  rfl

/-- Witness for C2's amended theorem at the counterexample context. -/
theorem sitemap_first_fetched_only_witness :
    fetch_sitemap_urls cexCtx "https://example.com/docs" = .ok [] :=
  (sitemap_first_fetched_only cexCtx "https://example.com/docs"
    "https://example.com".toList "https://example.com/docs".toList
    ⟨"https".toList, "example.com".toList, "/docs".toList, [], []⟩
    ⟨"https://example.com/docs/sitemap.xml", 200, [], strB "notxml"⟩
    (by decide) (by decide) (by decide) (by decide) (by decide)
    (by decide) (by rfl)).2

/-! ### Claim C7: sitemap-index traversal recurses exactly one level -/

/-- Contribution of one referenced leaf sitemap, written as the spec
describes it: the leaf is fetched once and only its direct `<url><loc>`
entries are collected; nothing inside the leaf is followed further. -/
def leafContribution (ctx : Ctx) (ns : String) (sm : XmlElem) : List String :=
  let loc := getLocX ns sm
  if loc = "" then []
  else
    match fetchC ctx loc with
    | none => []
    | some sub =>
      if sub.status = 200 ∧ sub.body ≠ [] then
        match ctx.parseXml (decode_bytes sub.body sub.headers).asString with
        | none => []
        | some subRoot => urlsetLocs (nsOf subRoot) subRoot
      else []

theorem sitemapCollect_step (ctx : Ctx) (ns : String) (urls : List String)
    (sm : XmlElem) :
    (let loc := getLocX ns sm
     if loc = "" then urls
     else
       match fetchC ctx loc with
       | none => urls
       | some sub =>
         if sub.status = 200 ∧ sub.body ≠ [] then
           match ctx.parseXml (decode_bytes sub.body sub.headers).asString with
           | none => urls
           | some subRoot => urls ++ urlsetLocs (nsOf subRoot) subRoot
         else urls) = urls ++ leafContribution ctx ns sm := by
  unfold leafContribution
  dsimp only
  by_cases hloc : getLocX ns sm = ""
  · rw [if_pos hloc, if_pos hloc]
    simp
  · rw [if_neg hloc, if_neg hloc]
    cases hfetch : fetchC ctx (getLocX ns sm) with
    | none => simp
    | some sub =>
      dsimp only
      by_cases hok : sub.status = 200 ∧ sub.body ≠ []
      · rw [if_pos hok, if_pos hok]
        cases hp : ctx.parseXml (decode_bytes sub.body sub.headers).asString with
        | none => simp
        | some subRoot => rfl
      · rw [if_neg hok, if_neg hok]
        simp

theorem sitemapCollect_fold (ctx : Ctx) (ns : String) :
    ∀ (l : List XmlElem) (acc : List String),
      l.foldl (fun urls sm =>
        let loc := getLocX ns sm
        if loc = "" then urls
        else
          match fetchC ctx loc with
          | none => urls
          | some sub =>
            if sub.status = 200 ∧ sub.body ≠ [] then
              match ctx.parseXml (decode_bytes sub.body sub.headers).asString with
              | none => urls
              | some subRoot => urls ++ urlsetLocs (nsOf subRoot) subRoot
            else urls) acc =
      acc ++ l.flatMap (leafContribution ctx ns) := by
  intro l
  induction l with
  | nil => intro acc; simp
  | cons sm rest ih =>
    intro acc
    rw [List.foldl_cons, List.flatMap_cons]
    rw [sitemapCollect_step ctx ns acc sm, ih, List.append_assoc]

/-- Claim C7: when the root element is a sitemap index, the collection
phase (before host/path filtering and dedup) is exactly the concatenation
of the referenced leaves' direct `<url><loc>` entries — one fetch per
referenced leaf, no deeper recursion — and a leaf that is itself a
`<sitemapindex>` (all children tagged `sitemap`) contributes no URLs. -/
theorem sitemap_index_one_level (ctx : Ctx) (rootEl : XmlElem)
    (hidx : endsWithL rootEl.tag.toList "sitemapindex".toList = true) :
    sitemapCollect ctx rootEl =
      (findallX rootEl (nsOf rootEl ++ "sitemap")).flatMap
        (leafContribution ctx (nsOf rootEl)) ∧
    (∀ subRoot : XmlElem,
      (∀ c ∈ subRoot.children, c.tag = nsOf subRoot ++ "sitemap") →
      urlsetLocs (nsOf subRoot) subRoot = []) := by
  constructor
  · unfold sitemapCollect
    dsimp only
    rw [if_pos hidx]
    rw [sitemapCollect_fold ctx (nsOf rootEl) (findallX rootEl (nsOf rootEl ++ "sitemap")) []]
    simp
  · intro subRoot hch
    unfold urlsetLocs findallX
    have hfil : subRoot.children.filter
        (fun c => c.tag == nsOf subRoot ++ "url") = [] := by
      rw [List.filter_eq_nil_iff]
      intro c hc
      have htag := hch c hc
      rw [htag]
      simp only [beq_iff_eq]
      intro hcontra
      have hlen := congrArg String.length hcontra
      simp only [String.length_append] at hlen
      have : (7 : Nat) = 4 := by
        have h7 : "sitemap".length = 7 := by decide
        have h4 : "url".length = 3 := by decide
        omega
      omega
    rw [hfil]
    rfl

def idxLeaf1 : XmlElem :=
  .mk "urlset" none
    [.mk "url" none [.mk "loc" (some "https://e.com/a") []],
     .mk "url" none [.mk "loc" (some "https://e.com/b") []]]

/-- A referenced leaf that is itself a sitemap index pointing to a third
sitemap: one-level recursion must not follow it. -/
def idxLeaf2 : XmlElem :=
  .mk "sitemapindex" none
    [.mk "sitemap" none [.mk "loc" (some "https://e.com/sm3.xml") []]]

def idxLeaf3 : XmlElem :=
  .mk "urlset" none
    [.mk "url" none [.mk "loc" (some "https://e.com/not-followed") []]]

def idxRoot : XmlElem :=
  .mk "sitemapindex" none
    [.mk "sitemap" none [.mk "loc" (some "https://e.com/sm1.xml") []],
     .mk "sitemap" none [.mk "loc" (some "https://e.com/sm2.xml") []]]

def idxW : String → Nat → Except Unit RawResp := fun u _ =>
  if u = "https://e.com/sm1.xml" then .ok ⟨200, [], strB "L1"⟩
  else if u = "https://e.com/sm2.xml" then .ok ⟨200, [], strB "L2"⟩
  else if u = "https://e.com/sm3.xml" then .ok ⟨200, [], strB "L3"⟩
  else .error ()

def idxParse : String → Option XmlElem := fun s =>
  if s = "L1" then some idxLeaf1
  else if s = "L2" then some idxLeaf2
  else if s = "L3" then some idxLeaf3
  else none

def idxCtx : Ctx := ⟨idxW, fun _ => none, idxParse, fun _ => []⟩

/-- Witness for C7: an index referencing a url-set leaf and an index-shaped
leaf (which itself references a third, reachable sitemap) yields exactly
the url-set leaf's entries; the third sitemap is not followed. -/
theorem sitemap_index_one_level_witness :
    sitemapCollect idxCtx idxRoot = ["https://e.com/a", "https://e.com/b"] := by
  have h := (sitemap_index_one_level idxCtx idxRoot (by decide)).1
  rw [h]
  rfl

/-! ### Claim C1: host/path filter invariant (counterexample) -/

def c1Urlset : XmlElem :=
  .mk "urlset" none [.mk "url" none [.mk "loc" (some "https://example.com/docsomething") []]]

def c1W : String → Nat → Except Unit RawResp := fun u _ =>
  if u = "https://example.com/docs/sitemap.xml" then .ok ⟨200, [], strB "smap"⟩
  else .error ()

def c1Parse : String → Option XmlElem := fun s =>
  if s = "smap" then some c1Urlset else none

def c1Ctx : Ctx := ⟨c1W, fun _ => none, c1Parse, fun _ => []⟩

/-- Claim C1 (counterexample): for base `https://example.com/docs`, the
sitemap probe keeps `https://example.com/docsomething`, whose path merely
starts with the base path as a string prefix — it is neither equal to
`/docs` nor nested under it at a `/` segment boundary. -/
theorem host_path_boundary_counterexample :
    fetch_sitemap_urls c1Ctx "https://example.com/docs" =
      .ok ["https://example.com/docsomething"] ∧
    (pyUrlsplitL "https://example.com/docsomething".toList).map (fun p => p.path) =
      .ok "/docsomething".toList ∧
    ¬ ("/docsomething".toList = "/docs".toList ∨
       startsWithL "/docsomething".toList "/docs/".toList = true) := by
  refine ⟨by decide, by decide, by decide⟩

/-! ## Manifest-link extraction (doc.py lines 347-396) -/

/-- One attempted match of `\[[^\]]+\]\(([^)]+)\)` starting just after a
`[`: greedy label up to `]`, then `](`, then the captured `[^)]+` up to the
closing `)`.  Returns the capture and the input after the full match. -/
def tryMdLink (rest : List Char) : Option (List Char × List Char) :=
  let label := rest.takeWhile (fun c => !(c == ']'))
  if label.isEmpty then none
  else
    match rest.drop label.length with
    | ']' :: '(' :: more =>
      let cap := more.takeWhile (fun c => !(c == ')'))
      if cap.isEmpty then none
      else
        match more.drop cap.length with
        | ')' :: after => some (cap, after)
        | _ => none
    | _ => none

/-- `re.findall(r"\[[^\]]+\]\(([^)]+)\)", text)`: leftmost, non-overlapping
markdown-link captures.  Fuel (the input length) makes the recursion
structural; it cannot run out since every step consumes input. -/
def mdLinkScanF : Nat → List Char → List (List Char)
  | 0, _ => []
  | _ + 1, [] => []
  | fuel + 1, c :: rest =>
    if c = '[' then
      match tryMdLink rest with
      | some (cap, after) => cap :: mdLinkScanF fuel after
      | none => mdLinkScanF fuel rest
    else mdLinkScanF fuel rest

def mdLinkScan (l : List Char) : List (List Char) := mdLinkScanF l.length l

/-- The character class `[^\s<>()\"\']` of the bare-URL regex. -/
def bareUrlStop (c : Char) : Bool :=
  isPyWs c || decide (c ∈ (['<', '>', '(', ')', '"', '\''] : List Char))

/-- One attempted match of `https?://[^\s<>()\"\']+` at the current
position. -/
def tryBareUrl (l : List Char) : Option (List Char × List Char) :=
  let k : Option Nat :=
    if startsWithL l "https://".toList then some 8
    else if startsWithL l "http://".toList then some 7
    else none
  match k with
  | none => none
  | some k =>
    let rest := l.drop k
    let tail := rest.takeWhile (fun c => !bareUrlStop c)
    if tail.isEmpty then none
    else some (l.take k ++ tail, rest.drop tail.length)

/-- `re.findall(r"https?://[^\s<>()\"\']+", text)`: leftmost,
non-overlapping bare URLs. -/
def bareUrlScanF : Nat → List Char → List (List Char)
  | 0, _ => []
  | _ + 1, [] => []
  | fuel + 1, c :: rest =>
    match tryBareUrl (c :: rest) with
    | some (m, after) => m :: bareUrlScanF fuel after
    | none => bareUrlScanF fuel rest

def bareUrlScan (l : List Char) : List (List Char) := bareUrlScanF l.length l

/-- The base prefix used by the manifest filter:
`base.path.rstrip("/") or "/"`. -/
def llmsBasePrefix (base : UrlParts) : List Char :=
  let bp := rstripP (fun c => c == '/') base.path
  if bp = [] then ['/'] else bp

/-- The filter-and-insert step applied to one absolute candidate URL `u`:
parse defensively (a `ValueError` skips the candidate), require the base
host, require the path equal to the base prefix or nested under it at a
`/` boundary, drop the fragment, and add to the result set. -/
def extractProcess (baseHost basePrefix : List Char) (out : List String)
    (u : List Char) : List String :=
  match pyUrlsplitL u with
  | .error _ => out
  | .ok parts =>
    if parts.netloc ≠ baseHost then out
    else if ¬ (parts.path = basePrefix ∨
        startsWithL parts.path (basePrefix ++ ['/']) = true) then out
    else
      let normalized :=
        (pyUrlunsplitL ⟨parts.scheme, parts.netloc, parts.path, parts.query, []⟩).asString
      if normalized ∈ out then out else out ++ [normalized]

/-- `extract_urls_from_llms_txt` from doc.py.  The candidate set (markdown
links plus bare URLs) is iterated; root-relative candidates go through
`urljoin` (whose `ValueError` is *not* caught and so propagates); the
result is the sorted, deduplicated set. -/
def extractStep (base_url : String) (baseHost basePrefix : List Char)
    (out : List String) (raw : List Char) : Except Unit (List String) :=
  let u := stripP (fun c => decide (c ∈ (['.', ',', ';', ':'] : List Char)))
    (stripP isPyWs raw)
  if startsWithL u "/".toList then
    (pyUrljoinL base_url.toList u).bind
      (fun u2 => pure (extractProcess baseHost basePrefix out u2))
  else if startsWithL u "http://".toList || startsWithL u "https://".toList then
    pure (extractProcess baseHost basePrefix out u)
  else
    pure out

def extract_urls_from_llms_txt (text base_url : String) :
    Except Unit (List String) := do
  let base ← pyUrlsplitL base_url.toList
  let candidates := ((mdLinkScan text.toList) ++ (bareUrlScan text.toList)).dedup
  let out ← candidates.foldlM
    (extractStep base_url base.netloc (llmsBasePrefix base)) []
  return List.insertionSort (· ≤ ·) out

/-! ## SidebarLinkParser (doc.py lines 496-570) -/

def sbKeywords : List String := ["sidebar", "menu", "nav", "toc", "docs", "navigation"]

/-- A stack frame qualifies when it is `nav`/`aside` or its class/id blob
contains a keyword. -/
def frameCandidate (f : String × List (String × String)) : Bool :=
  decide (f.1 ∈ (["nav", "aside"] : List String)) ||
  (let cls := lowerL (headerGet f.2 "class").toList
   let ident := lowerL (headerGet f.2 "id").toList
   sbKeywords.any (fun k => strContainsL (cls ++ ' ' :: ident) k.toList))

/-- `SidebarLinkParser._in_candidate`. -/
def inCandidate (stack : List (String × List (String × String))) : Bool :=
  stack.any frameCandidate

/-- State of `SidebarLinkParser`.  The Python `_seen` set always holds the
same members as `urls`, so membership in `urls` models it. -/
structure SbState where
  stack : List (String × List (String × String))
  urls : List String
  ignoreDepth : Nat
deriving Repr, DecidableEq

def sbInit : SbState := ⟨[], [], 0⟩

/-- `href` resolution in `handle_starttag`: root-relative links join
against the root, others against `base + "/"`. -/
def sbJoinHref (root base : String) (href : List Char) : Except Unit (List Char) :=
  if startsWithL href "/".toList then pyUrljoinL root.toList href
  else pyUrljoinL (base.toList ++ "/".toList) href

/-- `SidebarLinkParser.handle_starttag`.  `urljoin` and the unprotected
`urlsplit` can raise `ValueError`, which would propagate out of `feed`. -/
def sbStart (root base : String) (baseHost basePath : List Char)
    (st : SbState) (tag0 : String) (attrs : List (String × String)) :
    Except Unit SbState :=
  let tag := (lowerL tag0.toList).asString
  let attrsDict := attrs.map (fun p => ((lowerL p.1.toList).asString, p.2))
  if tag ∈ (["script", "style", "noscript"] : List String) then
    pure { st with ignoreDepth := st.ignoreDepth + 1 }
  else if st.ignoreDepth > 0 then
    pure st
  else
    let st := { st with stack := st.stack ++ [(tag, attrsDict)] }
    if tag = "a" ∧ inCandidate st.stack = true then
      let href := stripP isPyWs (headerGet attrsDict "href").toList
      if href = [] ∨ startsWithL href "#".toList = true ∨
          startsWithL (lowerL href) "javascript:".toList = true then
        pure st
      else
        (sbJoinHref root base href).bind (fun href2 =>
          let href3 := normalizeUrlL href2
          if href3 = [] then pure st
          else
            (pyUrlsplitL href3).bind (fun parts =>
              if parts.netloc ≠ baseHost then pure st
              else if basePath ≠ [] ∧ ¬ startsWithL parts.path basePath = true then pure st
              else
                pure (if href3.asString ∈ st.urls then st
                  else { st with urls := st.urls ++ [href3.asString] })))
    else
      pure st

/-- `SidebarLinkParser.handle_endtag`. -/
def sbEnd (st : SbState) (tag0 : String) : SbState :=
  let tag := (lowerL tag0.toList).asString
  if tag ∈ (["script", "style", "noscript"] : List String) then
    if st.ignoreDepth > 0 then { st with ignoreDepth := st.ignoreDepth - 1 } else st
  else if st.ignoreDepth > 0 then st
  else if !st.stack.isEmpty then { st with stack := st.stack.dropLast } else st

/-- `SidebarLinkParser.__init__`: `base_host` and `base_path` come from
`urlsplit` of the root and base (both can raise). -/
def sbMake (root base : String) : Except Unit (List Char × List Char) := do
  let rp ← pyUrlsplitL root.toList
  let bp ← pyUrlsplitL base.toList
  return (rp.netloc, rstripP (fun c => c == '/') bp.path)

/-- `SidebarLinkParser.feed` over an event stream. -/
def sbStepEvent (root base : String) (baseHost basePath : List Char)
    (st : SbState) : HtmlEvent → Except Unit SbState
  | .startTag t a => sbStart root base baseHost basePath st t a
  | .endTag t => pure (sbEnd st t)
  | .dataText _ => pure st

def sbRun (root base : String) (baseHost basePath : List Char)
    (events : List HtmlEvent) (st0 : SbState) : Except Unit SbState :=
  events.foldlM (sbStepEvent root base baseHost basePath) st0

/-! ### Claim C1 (amended): what the filters actually guarantee -/

theorem exBindErrG {α β : Type} (f : α → Except Unit β) (e : Unit) :
    ((Except.error e : Except Unit α) >>= f) = Except.error () := by
  cases e
  rfl

theorem exBindOk2 {α β : Type} (a : α) (f : α → Except Unit β) :
    Except.bind (Except.ok a) f = f a := rfl

theorem exBindErr2 {α β : Type} (f : α → Except Unit β) (e : Unit) :
    Except.bind (Except.error e) f = Except.error () := by
  cases e
  rfl

/-- Invariant preservation through `List.foldlM` in the `Except` monad. -/
theorem foldlM_except_inv {α β : Type} (P : β → Prop) (f : β → α → Except Unit β) :
    ∀ (l : List α) (b0 bf : β), P b0 →
      (∀ b a b', P b → f b a = .ok b' → P b') →
      l.foldlM f b0 = .ok bf → P bf := by
  intro l
  induction l with
  | nil =>
    intro b0 bf h0 _ h
    rw [List.foldlM_nil] at h
    exact (Except.ok.inj h) ▸ h0
  | cons a rest ih =>
    intro b0 bf h0 hstep h
    rw [List.foldlM_cons] at h
    cases hf : f b0 a with
    | error e =>
      rw [hf, exBindErrG] at h
      cases h
    | ok b1 =>
      rw [hf, exBindOk] at h
      exact ih b1 bf (hstep b0 a b1 h0 hf) hstep h

/-- The property every URL kept by the manifest filter satisfies: it is
the fragment-stripped reassembly of parsed parts whose host is the base
host and whose path equals the base prefix or extends it at a `/`
boundary. -/
def llmsKeptOk (baseHost basePrefix : List Char) (u : String) : Prop :=
  ∃ parts : UrlParts, parts.netloc = baseHost ∧
    (parts.path = basePrefix ∨ startsWithL parts.path (basePrefix ++ ['/']) = true) ∧
    u = (pyUrlunsplitL ⟨parts.scheme, parts.netloc, parts.path, parts.query, []⟩).asString

theorem extractProcess_inv (baseHost basePrefix : List Char) (out : List String)
    (v : List Char) (hout : ∀ u ∈ out, llmsKeptOk baseHost basePrefix u) :
    ∀ u ∈ extractProcess baseHost basePrefix out v, llmsKeptOk baseHost basePrefix u := by
  intro u hu
  unfold extractProcess at hu
  cases hsp : pyUrlsplitL v with
  | error e => rw [hsp] at hu; exact hout u hu
  | ok parts =>
    rw [hsp] at hu
    dsimp only at hu
    by_cases h1 : parts.netloc ≠ baseHost
    · rw [if_pos h1] at hu; exact hout u hu
    · rw [if_neg h1] at hu
      by_cases h2 : ¬ (parts.path = basePrefix ∨
          startsWithL parts.path (basePrefix ++ ['/']) = true)
      · rw [if_pos h2] at hu; exact hout u hu
      · rw [if_neg h2] at hu
        by_cases h3 : (pyUrlunsplitL
            ⟨parts.scheme, parts.netloc, parts.path, parts.query, []⟩).asString ∈ out
        · rw [if_pos h3] at hu; exact hout u hu
        · rw [if_neg h3] at hu
          rcases List.mem_append.mp hu with hu | hu
          · exact hout u hu
          · rw [List.mem_singleton] at hu
            subst hu
            exact ⟨parts, not_not.mp h1, not_not.mp h2, rfl⟩

theorem extractStep_inv (base_url : String) (baseHost basePrefix : List Char)
    (out : List String) (raw : List Char) (out2 : List String)
    (hout : ∀ u ∈ out, llmsKeptOk baseHost basePrefix u)
    (hstep : extractStep base_url baseHost basePrefix out raw = .ok out2) :
    ∀ u ∈ out2, llmsKeptOk baseHost basePrefix u := by
  unfold extractStep at hstep
  dsimp only at hstep
  set u0 := stripP (fun c => decide (c ∈ (['.', ',', ';', ':'] : List Char)))
    (stripP isPyWs raw) with hu0
  by_cases h1 : startsWithL u0 "/".toList = true
  · rw [if_pos h1] at hstep
    cases hj : pyUrljoinL base_url.toList u0 with
    | error e => rw [hj, exBindErr2] at hstep; cases hstep
    | ok u2 =>
      rw [hj, exBindOk2] at hstep
      have heq : extractProcess baseHost basePrefix out u2 = out2 := Except.ok.inj hstep
      exact heq ▸ extractProcess_inv baseHost basePrefix out u2 hout
  · rw [if_neg h1] at hstep
    by_cases h2 : (startsWithL u0 "http://".toList || startsWithL u0 "https://".toList) = true
    · rw [if_pos h2] at hstep
      have heq : extractProcess baseHost basePrefix out u0 = out2 := Except.ok.inj hstep
      exact heq ▸ extractProcess_inv baseHost basePrefix out u0 hout
    · rw [if_neg h2] at hstep
      have heq : out = out2 := Except.ok.inj hstep
      exact heq ▸ hout

/-- The guarantee for URLs kept by the sitemap filter. -/
def sitemapKeptOk (baseNorm basePath : List Char) (u : String) : Prop :=
  ∃ up bn : UrlParts, pyUrlsplitL u.toList = .ok up ∧
    pyUrlsplitL baseNorm = .ok bn ∧ up.netloc = bn.netloc ∧
    (basePath ≠ [] → startsWithL up.path basePath = true)

theorem sitemapFilterStep_inv (baseNorm basePath : List Char)
    (acc : List String) (u0 : String) (acc2 : List String)
    (hacc : ∀ u ∈ acc, sitemapKeptOk baseNorm basePath u)
    (hstep : sitemapFilterStep baseNorm basePath acc u0 = .ok acc2) :
    ∀ u ∈ acc2, sitemapKeptOk baseNorm basePath u := by
  unfold sitemapFilterStep at hstep
  dsimp only at hstep
  by_cases h0 : normalize_url u0 = ""
  · rw [if_pos h0] at hstep
    exact (Except.ok.inj hstep) ▸ hacc
  · rw [if_neg h0] at hstep
    cases hup : pyUrlsplitL (normalize_url u0).toList with
    | error e => rw [hup, exBindErrG] at hstep; cases hstep
    | ok up =>
      rw [hup, exBindOk] at hstep
      cases hbn : pyUrlsplitL baseNorm with
      | error e => rw [hbn, exBindErrG] at hstep; cases hstep
      | ok bn =>
        rw [hbn, exBindOk] at hstep
        by_cases h1 : up.netloc ≠ bn.netloc
        · rw [if_pos h1] at hstep
          exact (Except.ok.inj hstep) ▸ hacc
        · rw [if_neg h1] at hstep
          by_cases h2 : basePath ≠ [] ∧ ¬ startsWithL up.path basePath = true
          · rw [if_pos h2] at hstep
            exact (Except.ok.inj hstep) ▸ hacc
          · rw [if_neg h2] at hstep
            by_cases h3 : normalize_url u0 ∈ acc
            · rw [if_pos h3] at hstep
              exact (Except.ok.inj hstep) ▸ hacc
            · rw [if_neg h3] at hstep
              have heq : acc ++ [normalize_url u0] = acc2 := Except.ok.inj hstep
              intro u hu
              rw [← heq] at hu
              rcases List.mem_append.mp hu with hu | hu
              · exact hacc u hu
              · rw [List.mem_singleton] at hu
                subst hu
                refine ⟨up, bn, hup, hbn, not_not.mp h1, ?_⟩
                intro hbp
                by_contra hs
                exact h2 ⟨hbp, hs⟩

theorem sitemapFilter_inv (base basePath : List Char) (urls : List String)
    (out : List String)
    (h : sitemapFilter base basePath urls = .ok out) :
    ∀ u ∈ out, sitemapKeptOk (rstripP (fun c => c == '/') base) basePath u := by
  unfold sitemapFilter at h
  refine foldlM_except_inv (fun acc => ∀ u ∈ acc,
    sitemapKeptOk (rstripP (fun c => c == '/') base) basePath u) _ urls [] out
    (by simp) ?_ h
  intro acc u0 acc2 hacc hstep
  exact sitemapFilterStep_inv _ basePath acc u0 acc2 hacc hstep

/-- The guarantee for URLs kept by the sidebar scraper. -/
def sbKeptOk (baseHost basePath : List Char) (u : String) : Prop :=
  ∃ up : UrlParts, pyUrlsplitL u.toList = .ok up ∧ up.netloc = baseHost ∧
    (basePath ≠ [] → startsWithL up.path basePath = true)

theorem sbEnd_urls (st : SbState) (t : String) : (sbEnd st t).urls = st.urls := by
  unfold sbEnd
  dsimp only
  by_cases h1 : (lowerL t.toList).asString ∈ (["script", "style", "noscript"] : List String)
  · rw [if_pos h1]
    by_cases h2 : st.ignoreDepth > 0
    · rw [if_pos h2]
    · rw [if_neg h2]
  · rw [if_neg h1]
    by_cases h2 : st.ignoreDepth > 0
    · rw [if_pos h2]
    · rw [if_neg h2]
      by_cases h3 : (!st.stack.isEmpty) = true
      · rw [if_pos h3]
      · rw [if_neg h3]

theorem sbStart_inv (root base : String) (baseHost basePath : List Char)
    (st : SbState) (t : String) (attrs : List (String × String)) (st2 : SbState)
    (hst : ∀ u ∈ st.urls, sbKeptOk baseHost basePath u)
    (h : sbStart root base baseHost basePath st t attrs = .ok st2) :
    ∀ u ∈ st2.urls, sbKeptOk baseHost basePath u := by
  unfold sbStart at h
  dsimp only at h
  set tag := (lowerL t.toList).asString with htag
  set attrsDict := attrs.map (fun p => ((lowerL p.1.toList).asString, p.2)) with had
  by_cases h1 : tag ∈ (["script", "style", "noscript"] : List String)
  · rw [if_pos h1] at h
    have heq := Except.ok.inj h
    rw [← heq]
    exact hst
  · rw [if_neg h1] at h
    by_cases h2 : st.ignoreDepth > 0
    · rw [if_pos h2] at h
      exact (Except.ok.inj h) ▸ hst
    · rw [if_neg h2] at h
      by_cases h3 : tag = "a" ∧ inCandidate (st.stack ++ [(tag, attrsDict)]) = true
      · rw [if_pos h3] at h
        set href := stripP isPyWs (headerGet attrsDict "href").toList with hhref
        by_cases h4 : href = [] ∨ startsWithL href "#".toList = true ∨
            startsWithL (lowerL href) "javascript:".toList = true
        · rw [if_pos h4] at h
          have heq := Except.ok.inj h
          rw [← heq]
          exact hst
        · rw [if_neg h4] at h
          cases hj : sbJoinHref root base href with
          | error e =>
            rw [hj, exBindErr2] at h
            cases h
          | ok href2 =>
            rw [hj, exBindOk2] at h
            try dsimp only at h
            by_cases h5 : normalizeUrlL href2 = []
            · rw [if_pos h5] at h
              have heq := Except.ok.inj h
              rw [← heq]
              exact hst
            · rw [if_neg h5] at h
              cases hp : pyUrlsplitL (normalizeUrlL href2) with
              | error e => rw [hp, exBindErr2] at h; cases h
              | ok parts =>
                rw [hp, exBindOk2] at h
                by_cases h6 : parts.netloc ≠ baseHost
                · rw [if_pos h6] at h
                  have heq := Except.ok.inj h
                  rw [← heq]
                  exact hst
                · rw [if_neg h6] at h
                  by_cases h7 : basePath ≠ [] ∧ ¬ startsWithL parts.path basePath = true
                  · rw [if_pos h7] at h
                    have heq := Except.ok.inj h
                    rw [← heq]
                    exact hst
                  · rw [if_neg h7] at h
                    have heq := Except.ok.inj h
                    rw [← heq]
                    by_cases h8 : (normalizeUrlL href2).asString ∈ st.urls
                    · rw [if_pos h8]
                      exact hst
                    · rw [if_neg h8]
                      intro u hu
                      dsimp only at hu
                      rcases List.mem_append.mp hu with hu | hu
                      · exact hst u hu
                      · rw [List.mem_singleton] at hu
                        subst hu
                        refine ⟨parts, ?_, not_not.mp h6, ?_⟩
                        · rw [List.toList_asString]
                          exact hp
                        · intro hbp
                          by_contra hs
                          exact h7 ⟨hbp, hs⟩
      · rw [if_neg h3] at h
        have heq := Except.ok.inj h
        rw [← heq]
        exact hst

/-- Claim C1 (amended): every URL produced by each discovery strategy has
the base host; the manifest scan additionally guarantees the path is the
base prefix or extends it at a `/` segment boundary, while the sitemap and
navigation strategies only guarantee the path starts with the base path as
a plain string prefix (no segment boundary — see the counterexample). -/
theorem discovery_host_path_filter :
    (∀ (text base_url : String) (base : UrlParts) (out : List String),
      pyUrlsplitL base_url.toList = .ok base →
      extract_urls_from_llms_txt text base_url = .ok out →
      ∀ u ∈ out, llmsKeptOk base.netloc (llmsBasePrefix base) u) ∧
    (∀ (ctx : Ctx) (base_url : String) (rb : List Char × List Char)
       (bparts : UrlParts) (out : List String),
      split_root_and_baseL base_url.toList = .ok rb →
      pyUrlsplitL rb.2 = .ok bparts →
      fetch_sitemap_urls ctx base_url = .ok out →
      ∀ u ∈ out, sitemapKeptOk (rstripP (fun c => c == '/') rb.2)
        (rstripP (fun c => c == '/') bparts.path) u) ∧
    (∀ (root base : String) (baseHost basePath : List Char)
       (events : List HtmlEvent) (st : SbState),
      sbRun root base baseHost basePath events sbInit = .ok st →
      ∀ u ∈ st.urls, sbKeptOk baseHost basePath u) := by
  refine ⟨?_, ?_, ?_⟩
  · intro text base_url base out hbase hex u hu
    unfold extract_urls_from_llms_txt at hex
    rw [hbase, exBindOk] at hex
    try dsimp only at hex
    cases hf : ((mdLinkScan text.toList) ++ (bareUrlScan text.toList)).dedup.foldlM
        (extractStep base_url base.netloc (llmsBasePrefix base)) [] with
    | error e => rw [hf, exBindErrG] at hex; cases hex
    | ok out1 =>
      rw [hf, exBindOk] at hex
      have hout : out = List.insertionSort (· ≤ ·) out1 := (Except.ok.inj hex).symm
      rw [hout] at hu
      have hu1 : u ∈ out1 := (List.mem_insertionSort (· ≤ ·)).mp hu
      refine foldlM_except_inv
        (fun acc => ∀ v ∈ acc, llmsKeptOk base.netloc (llmsBasePrefix base) v)
        _ _ [] out1 (by simp) ?_ hf u hu1
      intro b a b2 hb hfa
      exact extractStep_inv base_url base.netloc (llmsBasePrefix base) b a b2 hb hfa
  · intro ctx base_url rb bparts out hsplit hbp hfs u hu
    unfold fetch_sitemap_urls at hfs
    rw [hsplit, exBindOk] at hfs
    try dsimp only at hfs
    rw [hbp, exBindOk] at hfs
    try dsimp only at hfs
    cases hft : firstSitemapText ctx (sitemapCandidates rb.1 rb.2) with
    | none =>
      rw [hft] at hfs
      have heq : ([] : List String) = out := Except.ok.inj hfs
      rw [← heq] at hu
      cases hu
    | some xmlText =>
      rw [hft] at hfs
      try dsimp only at hfs
      by_cases hempty : xmlText = []
      · rw [if_pos hempty] at hfs
        have heq : ([] : List String) = out := Except.ok.inj hfs
        rw [← heq] at hu
        cases hu
      · rw [if_neg hempty] at hfs
        cases hpx : ctx.parseXml xmlText.asString with
        | none =>
          rw [hpx] at hfs
          have heq : ([] : List String) = out := Except.ok.inj hfs
          rw [← heq] at hu
          cases hu
        | some rootEl =>
          rw [hpx] at hfs
          exact sitemapFilter_inv rb.2 (rstripP (fun c => c == '/') bparts.path)
            (sitemapCollect ctx rootEl) out hfs u hu
  · intro root base baseHost basePath events st h
    refine foldlM_except_inv (fun s : SbState => ∀ u ∈ s.urls, sbKeptOk baseHost basePath u)
      _ events sbInit st (by simp [sbInit]) ?_ h
    intro s e s2 hs hstep
    cases e with
    | startTag t a => exact sbStart_inv root base baseHost basePath s t a s2 hs hstep
    | endTag t =>
      have heq : sbEnd s t = s2 := Except.ok.inj hstep
      rw [← heq, sbEnd_urls]
      exact hs
    | dataText d =>
      have heq : s = s2 := Except.ok.inj hstep
      exact heq ▸ hs

/-- Witness for C1's amended theorem: the manifest scenario keeps
`/docs/intro` (segment boundary satisfied), the sitemap probe of the
counterexample context keeps `docsomething` (host plus string prefix), and
a nav link resolves and passes the sidebar filter. -/
theorem discovery_host_path_filter_witness :
    llmsKeptOk "example.com".toList "/docs".toList "https://example.com/docs/intro" ∧
    sitemapKeptOk "https://example.com/docs".toList "/docs".toList
      "https://example.com/docsomething" ∧
    sbKeptOk "example.com".toList "/docs".toList "https://example.com/docs/intro" := by
  refine ⟨?_, ?_, ?_⟩
  · exact discovery_host_path_filter.1 "[Intro](/docs/intro)" "https://example.com/docs"
      ⟨"https".toList, "example.com".toList, "/docs".toList, [], []⟩
      ["https://example.com/docs/intro"] (by decide) (by decide)
      "https://example.com/docs/intro" (by decide)
  · exact discovery_host_path_filter.2.1 c1Ctx "https://example.com/docs"
      ("https://example.com".toList, "https://example.com/docs".toList)
      ⟨"https".toList, "example.com".toList, "/docs".toList, [], []⟩
      ["https://example.com/docsomething"] (by decide) (by decide) (by decide)
      "https://example.com/docsomething" (by decide)
  · exact discovery_host_path_filter.2.2 "https://example.com" "https://example.com/docs"
      "example.com".toList "/docs".toList
      [.startTag "nav" [], .startTag "a" [("href", "/docs/intro")], .endTag "a", .endTag "nav"]
      ⟨[], ["https://example.com/docs/intro"], 0⟩
      (by decide) "https://example.com/docs/intro" (by decide)

/-! ## Orchestrator (doc.py lines 174-186, 289-295, 302-344, 573-601, 608-694, 821-929)

The filesystem is a write-ordered list of entries (directory creations,
text and binary file writes); reads return the most recent write. -/

inductive FsEntry
  | dir (path : String)
  | textFile (path : String) (content : String)
  | binFile (path : String) (content : List Nat)
deriving Repr, DecidableEq

abbrev FS := List FsEntry

/-- `ensure_dir` (`mkdir(parents=True, exist_ok=True)`). -/
def ensure_dir (p : String) (fs : FS) : FS := fs ++ [.dir p]

def save_text (p : String) (t : String) (fs : FS) : FS := fs ++ [.textFile p t]

def save_bytes (p : String) (b : List Nat) (fs : FS) : FS := fs ++ [.binFile p b]

/-- `Path.read_text`: the most recent text write at the path, if any
(`none` models the `OSError` that `build_combined` catches). -/
def read_text (p : String) (fs : FS) : Option String :=
  fs.reverse.findSome? (fun e =>
    match e with
    | .textFile q t => if q = p then some t else none
    | _ => none)

/-- `looks_textlike` from doc.py. -/
def looks_textlike (headers : List (String × String)) (body : List Nat) : Bool :=
  let ctype := lowerL (headerGet headers "Content-Type").toList
  if strContainsL ctype "text/".toList || strContainsL ctype "application/json".toList ||
      strContainsL ctype "application/xml".toList ||
      strContainsL ctype "application/xhtml".toList then true
  else !(body.take 2048).any (fun b => b = 0)

/-! ### Chrome stripping and main extraction (doc.py lines 174-186, 291) -/

def isWordChar (c : Char) : Bool := c.isAlpha || c.isDigit || c = '_'

/-- Case-insensitive prefix test against an already-lowercase needle. -/
def ciPrefix (l needle : List Char) : Bool := startsWithL (lowerL l) needle

/-- Scan for the first occurrence of `needle` (case-insensitively) and
return the remainder after it. -/
def findSubF (needle : List Char) : Nat → List Char → Option (List Char)
  | 0, _ => none
  | _ + 1, [] => none
  | fuel + 1, l@(_ :: rest) =>
    if ciPrefix l needle then some (l.drop needle.length)
    else findSubF needle fuel rest

def chromeTags : List (List Char) := ["nav".toList, "aside".toList, "footer".toList]

/-- One attempted match of `(?is)<(nav|aside|footer)\b.*?>.*?</\1>` at a
position starting with `<`: the lazy quantifiers mean "up to the first `>`,
then up to the first matching close tag". -/
def tryChromeMatch (cs : List Char) : Option (List Char) :=
  chromeTags.findSome? (fun t =>
    if ciPrefix cs ('<' :: t) &&
        ((cs.drop (1 + t.length)).head?.all (fun c => !isWordChar c)) then
      let rest0 := cs.drop (1 + t.length)
      if rest0.any (fun c => c == '>') then
        let afterOpen := (rest0.dropWhile (fun c => !(c == '>'))).drop 1
        findSubF ('<' :: '/' :: t ++ ['>']) afterOpen.length afterOpen
      else none
    else none)

/-- `re.sub(r"(?is)<(nav|aside|footer)\b.*?>.*?</\1>", " ", html)`. -/
def stripChromeF : Nat → List Char → List Char
  | 0, l => l
  | _ + 1, [] => []
  | fuel + 1, c :: rest =>
    if c = '<' then
      match tryChromeMatch (c :: rest) with
      | some after => ' ' :: stripChromeF fuel after
      | none => c :: stripChromeF fuel rest
    else c :: stripChromeF fuel rest

def stripChrome (l : List Char) : List Char := stripChromeF l.length l

/-- Scan for the close tag, splitting into the capture before it and the
remainder after it. -/
def findCloseSplitF (close : List Char) : Nat → List Char → Option (List Char × List Char)
  | 0, _ => none
  | _ + 1, [] => none
  | fuel + 1, l@(c :: rest) =>
    if ciPrefix l close then some ([], l.drop close.length)
    else (findCloseSplitF close fuel rest).map (fun p => (c :: p.1, p.2))

/-- `re.finditer(rf"(?is)<\x7btag\x7d\b[^>]*>(.*?)</\x7btag\x7d>", html)`:
non-overlapping captures. -/
def findTagBlocksF (tag : List Char) : Nat → List Char → List (List Char)
  | 0, _ => []
  | _ + 1, [] => []
  | fuel + 1, l@(_ :: rest) =>
    if ciPrefix l ('<' :: tag) &&
        ((l.drop (1 + tag.length)).head?.all (fun c => !isWordChar c)) then
      let rest0 := l.drop (1 + tag.length)
      if rest0.any (fun c => c == '>') then
        let afterOpen := (rest0.dropWhile (fun c => !(c == '>'))).drop 1
        match findCloseSplitF ('<' :: '/' :: tag ++ ['>']) afterOpen.length afterOpen with
        | some (cap, after) => cap :: findTagBlocksF tag fuel after
        | none => findTagBlocksF tag fuel rest
      else findTagBlocksF tag fuel rest
    else findTagBlocksF tag fuel rest

def findTagBlocks (tag : List Char) (l : List Char) : List (List Char) :=
  findTagBlocksF tag l.length l

/-- `max(candidates, key=len)`: the first candidate of maximal length. -/
def maxByLen (l : List (List Char)) : List Char :=
  l.foldl (fun best c => if c.length > best.length then c else best) (l.headD [])

/-- `extract_main_html` from doc.py. -/
def extract_main_html (html : List Char) : List Char :=
  let candidates := findTagBlocks "main".toList html ++ findTagBlocks "article".toList html
  if candidates = [] then html else maxByLen candidates

/-- `html_to_markdownish` from doc.py: strip chrome, narrow to the main
block, tokenize (library oracle), fold the markdown-ish handlers. -/
def html_to_markdownish (ctx : Ctx) (html : String) : String :=
  mdGetText (mdRun (ctx.tokenize (extract_main_html (stripChrome html.toList)).asString))

/-! ### Discovery front door (doc.py lines 302-344, 573-601) -/

def llmsVariants : List String := ["llms-full.txt", "llms.txt", "llms-small.txt"]

def lastSegment (u : String) : String :=
  ((splitOnChar '/' (rstripP (fun c => c == '/') u.toList)).getLastD []).asString

/-- `try_llms_files` from doc.py: probe the three manifest names under the
base, the root, and (for root bases) `/docs/`; keep the first hit per
filename, in insertion order. -/
def try_llms_files (ctx : Ctx) (base_url : String) :
    Except Unit (List (String × FetchResult)) := do
  let rb ← split_root_and_baseL base_url.toList
  let bparts ← pyUrlsplitL rb.2
  let cand1 := llmsVariants.map (fun v => (rb.2 ++ ('/' :: v.toList)).asString)
  let cand2 := llmsVariants.map (fun v => (rb.1 ++ ('/' :: v.toList)).asString)
  let cand3 :=
    if stripP (fun c => c == '/') bparts.path = [] then
      llmsVariants.map (fun v => (rb.1 ++ "/docs/".toList ++ v.toList).asString)
    else []
  return ((cand1 ++ cand2 ++ cand3).dedup).foldl (fun found u =>
    match fetchC ctx u with
    | none => found
    | some r =>
      if r.status = 200 ∧ r.body ≠ [] ∧ looks_textlike r.headers r.body = true then
        if found.any (fun p => p.1 = lastSegment u) then found
        else found ++ [(lastSegment u, r)]
      else found) []

def lookupFound (llms : List (String × FetchResult)) (k : String) : Option FetchResult :=
  (llms.find? (fun p => p.1 = k)).map (fun p => p.2)

/-- `discover_pages` from doc.py: manifest, then sitemap, then
navigation scrape; `("ingen", [], …)` when nothing yields pages. -/
def discover_pages (ctx : Ctx) (base_url : String) :
    Except Unit (String × List String × List (String × FetchResult)) := do
  let llms ← try_llms_files ctx base_url
  let viaLlms ←
    match lookupFound llms "llms.txt" with
    | some fr => do
      let text := (decode_bytes fr.body fr.headers).asString
      let urls ← extract_urls_from_llms_txt text base_url
      if urls ≠ [] then pure (some ("llms.txt", urls, llms))
      else pure (none : Option (String × List String × List (String × FetchResult)))
    | none => pure none
  match viaLlms with
  | some res => pure res
  | none => do
    let urls ← fetch_sitemap_urls ctx base_url
    if urls ≠ [] then pure ("sitemap.xml", urls, llms)
    else do
      let rb ← split_root_and_baseL base_url.toList
      match fetchC ctx base_url with
      | some r =>
        if r.status = 200 ∧ r.body ≠ [] then do
          let html := (decode_bytes r.body r.headers).asString
          let bhbp ← sbMake rb.1.asString rb.2.asString
          let pst ← sbRun rb.1.asString rb.2.asString bhbp.1 bhbp.2
            (ctx.tokenize html) sbInit
          if pst.urls ≠ [] then pure ("sidebar/nav", pst.urls, llms)
          else pure ("ingen", [], llms)
        else pure ("ingen", [], llms)
      | none => pure ("ingen", [], llms)

/-! ### Download and write-out (doc.py lines 608-694, 821-827) -/

/-- `write_llms_files` from doc.py. -/
def write_llms_files (llms : List (String × FetchResult)) (out_dir : String)
    (fs : FS) : FS :=
  if llms = [] then fs
  else
    llms.foldl (fun fs p => save_bytes (out_dir ++ "/llms/" ++ p.1) p.2.body fs)
      (ensure_dir (out_dir ++ "/llms") fs)

/-- `download_pages` from doc.py: per page, fetch (skip on failure), save
the raw body with a content-type-derived extension, convert (markdown-ish
for HTML, pass-through otherwise), save the converted text with a source
header.  Returns the markdown paths in order plus the filesystem. -/
def download_pages (ctx : Ctx) (urls : List String) (out_dir : String)
    (maxPages : Nat) (fs : FS) : Except Unit (List String × FS) :=
  let fs := ensure_dir (out_dir ++ "/raw") fs
  (urls.take maxPages).foldlM (fun (acc : List String × FS) u =>
    match fetchC ctx u with
    | none => pure acc
    | some r =>
      if r.status = 200 ∧ r.body ≠ [] then do
        let slug ← url_to_page_slug u
        let ctype := lowerL (headerGet r.headers "Content-Type").toList
        let ext :=
          if strContainsL ctype "text/markdown".toList then ".md"
          else if strContainsL ctype "text/plain".toList then ".txt"
          else if strContainsL ctype "application/json".toList then ".json"
          else ".html"
        let fs2 := save_bytes (out_dir ++ "/raw/" ++ slug ++ ext) r.body acc.2
        let text := (decode_bytes r.body r.headers).asString
        let mdBody :=
          if strContainsL ctype "text/html".toList || ext = ".html" then
            html_to_markdownish ctx text
          else if text.endsWith "\n" then text else text ++ "\n"
        let md := "# " ++ u ++ "\n" ++ "> Källa: " ++ u ++ "\n\n" ++ mdBody
        let mdPath := out_dir ++ "/md/" ++ slug ++ ".md"
        pure (acc.1 ++ [mdPath], save_text mdPath md fs2)
      else pure acc)
    ([], ensure_dir (out_dir ++ "/md") fs)

/-- `build_combined` from doc.py: title header, then each page file's
content (skipping unreadable ones) separated by `---` rules. -/
def build_combined (mdPaths : List String) (outPath title : String) (fs : FS) : FS :=
  let parts := ("# " ++ title ++ "\n\n") ::
    mdPaths.foldr (fun p acc =>
      match read_text p fs with
      | some t => t :: "\n\n---\n\n" :: acc
      | none => acc) []
  save_text outPath (String.join parts) fs

/-! ### The run manifest (doc.py lines 868-875) -/

def hexDig (n : Nat) : Char :=
  if n < 10 then Char.ofNat (48 + n) else Char.ofNat (87 + n)

/-- JSON string escaping as `json.dumps` performs it with
`ensure_ascii=False`. -/
def jsonEscape (s : List Char) : List Char :=
  s.flatMap (fun c =>
    if c = '"' then ['\\', '"']
    else if c = '\\' then ['\\', '\\']
    else if c = '\n' then ['\\', 'n']
    else if c = '\x0d' then ['\\', 'r']
    else if c = '\t' then ['\\', 't']
    else if c.toNat < 32 then
      ['\\', 'u', '0', '0', hexDig (c.toNat / 16), hexDig (c.toNat % 16)]
    else [c])

/-- `json.dumps(meta, ensure_ascii=False, indent=2)` for the fixed
`meta` dict shape written by `run_for_url`. -/
def metaJson (base_url method : String) (downloaded chosen ts : Nat) : String :=
  "\x7b\n  \"base_url\": \"" ++ (jsonEscape base_url.toList).asString ++
  "\",\n  \"discovery_method\": \"" ++ (jsonEscape method.toList).asString ++
  "\",\n  \"downloaded_pages\": " ++ toString downloaded ++
  ",\n  \"chosen_urls_count\": " ++ toString chosen ++
  ",\n  \"timestamp_unix\": " ++ toString ts ++ "\n\x7d"

/-! ### Per-target drivers (doc.py lines 830-929) -/

/-- `run_for_url` from doc.py.  The interactive `choose_action` reads
stdin, so it is a parameter with the same signature; `now` models
`int(time.time())`. -/
def run_for_url (ctx : Ctx)
    (chooser : String → String → List String → List (String × FetchResult) →
      String × List String)
    (now : Nat) (base_url0 : String) (fs : FS) : Except Unit FS :=
  let base_url := normalize_url base_url0
  if base_url = "" then pure fs
  else do
    let slug ← slug_from_url base_url
    let site_dir := "./docgrab__" ++ slug
    let fs := ensure_dir site_dir fs
    let dp ← discover_pages ctx base_url
    let fs := write_llms_files dp.2.2 site_dir fs
    let ac := chooser base_url dp.1 dp.2.1 dp.2.2
    if ac.1 = "skip" then pure fs
    else if ac.1 = "full_single" then
      match lookupFound dp.2.2 "llms-full.txt" with
      | some fr => pure (save_bytes (site_dir ++ "/combined__llms-full.txt") fr.body fs)
      | none => do
        let r ← download_pages ctx ac.2 site_dir 250 fs
        pure (build_combined r.1 (site_dir ++ "/combined.md") base_url r.2)
    else do
      let r ← download_pages ctx ac.2 site_dir 250 fs
      let fs := build_combined r.1 (site_dir ++ "/combined.md") base_url r.2
      pure (save_text (site_dir ++ "/meta.json")
        (metaJson base_url dp.1 r.1.length ac.2.length now) fs)

/-- `run_for_url_auto` from doc.py: the non-interactive driver.  Note that
no branch writes `meta.json`. -/
def run_for_url_auto (ctx : Ctx) (base_url0 : String) (mode : String)
    (fs : FS) : Except Unit FS :=
  let base_url := normalize_url base_url0
  if base_url = "" then pure fs
  else do
    let slug ← slug_from_url base_url
    let site_dir := "./docgrab__" ++ slug
    let fs := ensure_dir site_dir fs
    let dp ← discover_pages ctx base_url
    let fs := write_llms_files dp.2.2 site_dir fs
    if mode = "full" then
      match lookupFound dp.2.2 "llms-full.txt" with
      | some fr => pure (save_bytes (site_dir ++ "/combined__llms-full.txt") fr.body fs)
      | none =>
        if dp.2.1 ≠ [] then do
          let r ← download_pages ctx dp.2.1 site_dir 250 fs
          pure (build_combined r.1 (site_dir ++ "/combined.md") base_url r.2)
        else do
          let r ← download_pages ctx [base_url] site_dir 1 fs
          pure r.2
    else if mode = "all" then do
      let chosen := if dp.2.1 ≠ [] then dp.2.1 else [base_url]
      let r ← download_pages ctx chosen site_dir 250 fs
      pure (build_combined r.1 (site_dir ++ "/combined.md") base_url r.2)
    else if mode = "start" then do
      let r ← download_pages ctx [base_url] site_dir 1 fs
      pure r.2
    else pure fs

/-- The multi-target loop of `main` under `--auto`:
`for u in args: run_for_url_auto(u, mode)`. -/
def runAllAuto (ctx : Ctx) (mode : String) (args : List String) (fs : FS) :
    Except Unit FS :=
  args.foldlM (fun fs u => run_for_url_auto ctx u mode fs) fs

/-! ### Claim C4: zero-page targets, meta.json, and multi-target runs -/

/-- A world where every network request fails. -/
def ctxFail : Ctx := ⟨fun _ _ => .error (), fun _ => none, fun _ => none, fun _ => []⟩

/-- Whether a `meta.json` was written under the given site directory. -/
def hasMetaJson (dir : String) (fs : FS) : Bool :=
  fs.any (fun e =>
    match e with
    | .textFile p _ => p = dir ++ "/meta.json"
    | _ => false)

/-- Claim C4 (counterexample): a non-interactive (`--auto full`) run whose
every fetch fails still creates the output directory (with `raw/` and
`md/`), but writes no `meta.json` at all — `run_for_url_auto` has no
branch that writes one. -/
theorem auto_zero_pages_no_meta :
    run_for_url_auto ctxFail "https://example.com/docs" "full" [] =
      .ok [.dir "./docgrab__example.com__docs",
           .dir "./docgrab__example.com__docs/raw",
           .dir "./docgrab__example.com__docs/md"] ∧
    hasMetaJson "./docgrab__example.com__docs"
      [.dir "./docgrab__example.com__docs",
       .dir "./docgrab__example.com__docs/raw",
       .dir "./docgrab__example.com__docs/md"] = false := by
  refine ⟨by decide, by decide⟩

theorem foldlM_const {α β : Type} (f : β → α → Except Unit β)
    (hf : ∀ b a, f b a = pure b) : ∀ (l : List α) (b : β), l.foldlM f b = .ok b := by
  intro l
  induction l with
  | nil => intro b; rw [List.foldlM_nil]; rfl
  | cons a rest ih =>
    intro b
    rw [List.foldlM_cons, hf]
    exact ih b

theorem download_pages_fail (urls : List String) (out_dir : String)
    (maxPages : Nat) (fs : FS) :
    download_pages ctxFail urls out_dir maxPages fs =
      .ok ([], ensure_dir (out_dir ++ "/md") (ensure_dir (out_dir ++ "/raw") fs)) := by
  unfold download_pages
  exact foldlM_const _ (fun b a => rfl) _ _

/-- Claim C4 (amended): when every fetch fails (zero successfully fetched
pages), every processed target still creates its output directory together
with `raw/` and `md/`, and the remaining targets of a multi-target auto
invocation are still processed.  But no mode of `run_for_url_auto` — the
path `main` uses for every target exactly when `--auto` is passed — writes
`meta.json`: auto mode `full` (no llms-full.txt, no pages) falls back to
the start page and writes neither `combined.md` nor `meta.json`, while
auto mode `all` still writes `combined.md` holding just the title header
but again no `meta.json`.  Only the interactive `run_for_url` path, here
with the `start` action, writes `meta.json` reporting zero downloaded
pages alongside the title-header `combined.md`. -/
theorem zero_page_run_behavior (base_url slug method : String) (now : Nat)
    (hnz : ¬ normalize_url base_url = "")
    (hslug : slug_from_url (normalize_url base_url) = .ok slug)
    (hdisc : discover_pages ctxFail (normalize_url base_url) = .ok (method, [], [])) :
    run_for_url_auto ctxFail base_url "full" [] =
      .ok [.dir ("./docgrab__" ++ slug), .dir ("./docgrab__" ++ slug ++ "/raw"),
           .dir ("./docgrab__" ++ slug ++ "/md")] ∧
    run_for_url_auto ctxFail base_url "all" [] =
      .ok [.dir ("./docgrab__" ++ slug), .dir ("./docgrab__" ++ slug ++ "/raw"),
           .dir ("./docgrab__" ++ slug ++ "/md"),
           .textFile ("./docgrab__" ++ slug ++ "/combined.md")
             ("# " ++ normalize_url base_url ++ "\n\n")] ∧
    hasMetaJson ("./docgrab__" ++ slug)
      [.dir ("./docgrab__" ++ slug), .dir ("./docgrab__" ++ slug ++ "/raw"),
       .dir ("./docgrab__" ++ slug ++ "/md"),
       .textFile ("./docgrab__" ++ slug ++ "/combined.md")
         ("# " ++ normalize_url base_url ++ "\n\n")] = false ∧
    run_for_url ctxFail (fun b _ _ _ => ("start", [b])) now base_url [] =
      .ok [.dir ("./docgrab__" ++ slug), .dir ("./docgrab__" ++ slug ++ "/raw"),
           .dir ("./docgrab__" ++ slug ++ "/md"),
           .textFile ("./docgrab__" ++ slug ++ "/combined.md")
             ("# " ++ normalize_url base_url ++ "\n\n"),
           .textFile ("./docgrab__" ++ slug ++ "/meta.json")
             (metaJson (normalize_url base_url) method 0 1 now)] ∧
    runAllAuto ctxFail "full" [base_url, base_url] [] =
      .ok [.dir ("./docgrab__" ++ slug), .dir ("./docgrab__" ++ slug ++ "/raw"),
           .dir ("./docgrab__" ++ slug ++ "/md"),
           .dir ("./docgrab__" ++ slug), .dir ("./docgrab__" ++ slug ++ "/raw"),
           .dir ("./docgrab__" ++ slug ++ "/md")] := by
  have hauto : ∀ fs : FS, run_for_url_auto ctxFail base_url "full" fs =
      .ok (fs ++ [.dir ("./docgrab__" ++ slug), .dir ("./docgrab__" ++ slug ++ "/raw"),
        .dir ("./docgrab__" ++ slug ++ "/md")]) := by
    intro fs
    unfold run_for_url_auto
    rw [if_neg hnz]
    rw [hslug, exBindOk]
    try dsimp only
    rw [hdisc, exBindOk]
    try dsimp only
    simp [write_llms_files, lookupFound, download_pages_fail, ensure_dir,
      Except.map, List.append_assoc]
  have hne : ("./docgrab__" ++ slug ++ "/combined.md" : String) ≠
      "./docgrab__" ++ slug ++ "/meta.json" := by
    intro h
    have h2 := congrArg String.length h
    simp only [String.length_append] at h2
    have e1 : ("/combined.md" : String).length = 12 := rfl
    have e2 : ("/meta.json" : String).length = 10 := rfl
    omega
  refine ⟨?_, ?_, ?_, ?_, ?_⟩
  · rw [hauto []]
    simp
  · unfold run_for_url_auto
    rw [if_neg hnz]
    rw [hslug, exBindOk]
    try dsimp only
    rw [hdisc, exBindOk]
    try dsimp only
    simp [write_llms_files, lookupFound, download_pages_fail, ensure_dir,
      build_combined, save_text, read_text, String.join, Except.map,
      List.append_assoc]
  · unfold hasMetaJson
    simp [hne]
  · unfold run_for_url
    rw [if_neg hnz]
    rw [hslug, exBindOk]
    try dsimp only
    rw [hdisc, exBindOk]
    try dsimp only
    simp [write_llms_files, lookupFound, download_pages_fail, ensure_dir,
      build_combined, save_text, read_text, String.join, Except.map,
      List.append_assoc]
  · unfold runAllAuto
    rw [List.foldlM_cons, hauto, exBindOk, List.foldlM_cons, hauto, exBindOk,
      List.foldlM_nil]
    simp only [List.nil_append, List.append_assoc]
    rfl

/-- Witness for C4's amended theorem at a concrete target: auto mode
`full` leaves only the three directories, auto mode `all` additionally
writes the title-header `combined.md`, and neither writes `meta.json`. -/
theorem zero_page_run_behavior_witness :
    run_for_url_auto ctxFail "example.com/docs" "full" [] =
      .ok [.dir "./docgrab__example.com__docs",
           .dir "./docgrab__example.com__docs/raw",
           .dir "./docgrab__example.com__docs/md"] ∧
    run_for_url_auto ctxFail "example.com/docs" "all" [] =
      .ok [.dir "./docgrab__example.com__docs",
           .dir "./docgrab__example.com__docs/raw",
           .dir "./docgrab__example.com__docs/md",
           .textFile "./docgrab__example.com__docs/combined.md"
             "# https://example.com/docs\n\n"] :=
  ⟨(zero_page_run_behavior "example.com/docs" "example.com__docs" "ingen" 0
      (by decide) (by decide) (by decide)).1,
   (zero_page_run_behavior "example.com/docs" "example.com__docs" "ingen" 0
      (by decide) (by decide) (by decide)).2.1⟩

end Docgrab
